import Mathlib

/-!
# Slim4 — Launch Detection and Decision Pipeline: verification development

Shallow embedding of the Slim4 trading-signal pipeline and proofs about it.

Conventions used throughout this file:

* JavaScript `number` values that the source only ever adds, compares and
  divides exactly are modelled as `ℚ` (ratios, thresholds, prices) or as
  `ℤ`/`ℕ` (timestamps in ms, counters, scores).  Machine floating point is
  not modelled; all the constants involved (`0.70`, `0.15`, `0.35`, …) are
  treated as exact rationals.
* JavaScript `x || d` on numbers (default when `x` is `0`) is modelled by
  `orD`.
* Mutable module state is modelled by explicit state passing: each source
  function of type `state → args → state × result` is a Lean function on a
  `structure` holding the module's variables.
* Results of regular-expression extraction over raw log text
  (`extractFunder`, `extractPrice`, the parser's base58 candidate scan) and
  of remote RPC calls (`isRealSplMint`, transaction introspection) are
  passed to the embedded functions as explicit inputs ("oracle" inputs):
  the embedded control flow is exactly the source's, while the text
  scanning / network layer that produces those inputs is outside the model.
-/

namespace Slim4

/-- `clamp(v, lo, hi) = Math.max(lo, Math.min(hi, v))` from
`src/market/heat.ts` / `src/microstructure/firstNBlocks.ts`. -/
def clampZ (v lo hi : ℤ) : ℤ := max lo (min hi v)

/-- JavaScript `x || d` for numbers: `d` when `x = 0`, else `x`. -/
def orD (x d : ℤ) : ℤ := if x = 0 then d else x

/-- Microstructure snapshot, `MicroSnapshot` of `src/risk/safetyGate.ts`. -/
structure MicroSnapshot where
  buyers : ℕ
  uniqueFunders : ℕ
  sameFunderRatio : ℚ
  priceJumps : ℕ
  depthEst : ℚ
  lastTs : ℤ
deriving DecidableEq, Repr

/-- Verdict returned by the safety gate (`GateVerdict`). -/
structure GateVerdict where
  pass : Bool
  reasons : List String
deriving DecidableEq, Repr

/-- `safetyGate` from `src/risk/safetyGate.ts` (the `_origin` argument is
unused by the source and omitted).  Reasons are accumulated in the source's
push order. -/
def safetyGate (s : MicroSnapshot) : GateVerdict :=
  let c1 : Bool := s.buyers < 4
  let c2 : Bool := s.sameFunderRatio > 7/10
  let c3 : Bool := s.depthEst < 3/20
  let pass : Bool := !c1 && !c2 && !c3
  let reasons : List String :=
    (if c1 then ["buyers<4"] else []) ++
    (if c2 then ["sameFunderRatio>0.70"] else []) ++
    (if c3 then ["depthEst<0.15"] else []) ++
    (if pass then ["buyers>=4", "sameFunderRatio<=0.70", "depthEst>=0.15"] else [])
  { pass := pass, reasons := reasons }

/-- `convictionFromMicro` from `src/alpha/conviction.ts`, score component.
`cohortBoost` and `grBoost` stand for `getCohortBoost(mint, nowTs)` and
`getGrBoost(creator)`, which read process-wide maps outside this module and
are passed in as oracle inputs (the source's `buckets`/`reasons` logging
strings are not modelled). -/
def convictionFromMicro (s : MicroSnapshot) (cohortBoost grBoost : ℤ) : ℤ :=
  let score : ℤ :=
    (if s.buyers ≥ 8 then 30 else if s.buyers ≥ 6 then 20 else 0)
    + (if s.uniqueFunders ≥ 6 then 20 else if s.uniqueFunders ≥ 5 then 15 else 0)
    + (if s.priceJumps ≥ 2 then 20 else if s.priceJumps ≥ 1 then 10 else 0)
    + (if s.depthEst ≥ 35/100 then 20 else if s.depthEst ≥ 30/100 then 10 else 0)
    + (if s.sameFunderRatio > 60/100 then -20 else 0)
  max 0 (min 100 (score + cohortBoost + grBoost))

/-- Spec-side conviction bucket table (§4.5 of the specification), written
as "the highest satisfied tier of each bucket contributes": each bucket is
the `max` of its satisfied tier contributions. -/
def specBucketSum (s : MicroSnapshot) : ℤ :=
  max (if 8 ≤ s.buyers then 30 else 0) (if 6 ≤ s.buyers then 20 else 0)
  + max (if 6 ≤ s.uniqueFunders then 20 else 0) (if 5 ≤ s.uniqueFunders then 15 else 0)
  + max (if 2 ≤ s.priceJumps then 20 else 0) (if 1 ≤ s.priceJumps then 10 else 0)
  + max (if (35/100 : ℚ) ≤ s.depthEst then 20 else 0) (if (30/100 : ℚ) ≤ s.depthEst then 10 else 0)
  + (if (60/100 : ℚ) < s.sameFunderRatio then -20 else 0)

/-! ## Microstructure tracker (`src/microstructure/firstNBlocks.ts`)

Per-mint state of the in-memory tracker.  The watcher file
`src/feeds/solanaLaunchWatcher.ts` carries a second copy of `trackFirstN`
with the same event-ring / funder-count / price-jump core (its lines
505–512 are identical to the module's 61–68); the model below covers that
shared core.  `extractFunder` / `extractPrice` scan the raw log line with
regexes; their results are the `funder` / `price` oracle inputs. -/

/-- One entry of the per-mint bounded event ring (`Event`).  The raw log
line is not modelled (nothing reads it back). -/
structure MEvent where
  ts : ℤ
  funder : Option String
  price : Option ℚ
deriving DecidableEq, Repr

/-- `MintState` of `firstNBlocks.ts` (the `origin` tag is irrelevant to the
claims and omitted). `funderCounts` is the JS `Map funder → count` as an
insertion-ordered association list. -/
structure MintState where
  firstTs : ℤ
  lastTs : ℤ
  events : List MEvent
  funderCounts : List (String × ℕ)
  priceJumps : ℕ
  lastPrice : Option ℚ
deriving DecidableEq, Repr

/-- `st.funderCounts.set(f, (st.funderCounts.get(f) || 0) + 1)` on a JS
`Map`: bump in place when the key exists, else append with count 1. -/
def bumpCount : List (String × ℕ) → String → List (String × ℕ)
  | [], k => [(k, 1)]
  | (k', c) :: rest, k =>
      if k' = k then (k', c + 1) :: rest else (k', c) :: bumpCount rest k

/-- The fresh state built on first sight of a mint (`trackFirstN` lines
45–55). -/
def initState (ts : ℤ) : MintState :=
  { firstTs := ts, lastTs := ts, events := [], funderCounts := [],
    priceJumps := 0, lastPrice := none }

/-- `maxCount` loop of `getSnapshot`:
`for (const c of funderCounts.values()) maxCount = Math.max(maxCount, c)`. -/
def maxCount (l : List (String × ℕ)) : ℕ :=
  l.foldl (fun m p => max m p.2) 0

/-- `if (funder) st.funderCounts.set(funder, (st.funderCounts.get(funder) || 0) + 1)`
(`trackFirstN` lines 58–59). -/
def withFunder (funder : Option String) (st : MintState) : MintState :=
  match funder with
  | some f => { st with funderCounts := bumpCount st.funderCounts f }
  | none => st

/-- The price-jump update (`trackFirstN` lines 61–67): with both a current
and a last price, bump `priceJumps` when the last price is strictly
positive and the relative change is at least 10%. -/
def withPriceJump (price : Option ℚ) (st : MintState) : MintState :=
  match price, st.lastPrice with
  | some p, some prev =>
      if 0 < prev ∧ 1/10 ≤ |p - prev| / prev then
        { st with priceJumps := st.priceJumps + 1 }
      else st
  | _, _ => st

/-- `if (price !== undefined) st.lastPrice = price` (`trackFirstN` line 68). -/
def withLastPrice (price : Option ℚ) (st : MintState) : MintState :=
  match price with
  | some p => { st with lastPrice := some p }
  | none => st

/-- Push the event and cap the ring at 100 entries
(`trackFirstN` lines 70–72: `events.push(...); if (length > 100) shift()`). -/
def pushEvent (ts : ℤ) (funder : Option String) (price : Option ℚ)
    (st : MintState) : MintState :=
  let st := { st with events := st.events ++ [⟨ts, funder, price⟩] }
  if 100 < st.events.length then { st with events := st.events.tail } else st

/-- `trackFirstN(mint, origin, logTs, rawLog)` body for one mint
(`firstNBlocks.ts` lines 41–73), as the composition of its statements:
`st0` is the current `states.get(mint)`,
`funder = extractFunder(rawLog, mint)`, `price = extractPrice(rawLog)`.
The leading `if (!mint) return` guard is handled by the caller model; the
`logTs || Date.now()` default is irrelevant for a given `ts`. -/
def trackFirstN (st0 : Option MintState) (ts : ℤ)
    (funder : Option String) (price : Option ℚ) : MintState :=
  pushEvent ts funder price
    (withLastPrice price
      (withPriceJump price
        (withFunder funder { st0.getD (initState ts) with lastTs := ts })))

/-- `getSnapshot(mint)` (`firstNBlocks.ts` lines 75–105): zeros for an
unknown mint, else derived from the state. -/
def getSnapshot (st0 : Option MintState) : MicroSnapshot :=
  match st0 with
  | none => ⟨0, 0, 0, 0, 0, 0⟩
  | some st =>
      let buyers := st.events.length
      let uniqueFunders := st.funderCounts.length
      let sameFunderRatio : ℚ :=
        if 0 < buyers ∧ 0 < uniqueFunders then (maxCount st.funderCounts : ℚ) / buyers
        else 0
      let depthEst : ℚ := max 0 (min 1 ((buyers : ℚ) / 20))
      ⟨buyers, uniqueFunders, sameFunderRatio, st.priceJumps, depthEst, st.lastTs⟩

/-- One oracle input to `trackFirstN` (timestamp plus the two regex
extraction results). -/
structure TrackIn where
  ts : ℤ
  funder : Option String
  price : Option ℚ
deriving DecidableEq, Repr

/-- Fold a sequence of `trackFirstN` calls for one mint, starting from the
mint being untracked. -/
def runTrack (l : List TrackIn) : Option MintState :=
  l.foldl (fun st i => some (trackFirstN st i.ts i.funder i.price)) none

/-- A 32-character base58 funder address used in concrete runs. -/
def cexFunder : String := "22222222222222222222222222222222"

/-- 101 log lines for one mint, each containing the same funder address
and no price token: one more event than the 100-entry FIFO cap. -/
def cexC4run : Option MintState :=
  runTrack (List.replicate 101 ⟨0, some cexFunder, none⟩)

/-! ### Microstructure invariants -/

/-- Total number of funder observations recorded in the count map. -/
def sumCounts (l : List (String × ℕ)) : ℕ :=
  (l.map Prod.snd).sum

/-- Running invariant of one mint's tracker state after `n` `trackFirstN`
calls: the event ring holds `min n 100` events while the funder counts sum
to at most `n` (counts are never decremented when events are evicted). -/
def TrackInv (st : MintState) (n : ℕ) : Prop :=
  st.events.length = min n 100 ∧ sumCounts st.funderCounts ≤ n

/-! ## Heat controller

The repository contains two variants of the accepts-per-hour controller:

* `src/market/heat.ts` — a per-minute ring of **counts** of length
  `max(1, windowMin)`; `acceptsPerHour` sums the whole ring
  (namespace `MarketHeat` below);
* the controller embedded in `src/microstructure/firstNBlocks.ts`
  (lines 140–305 of that file) — a per-minute ring of **distinct-mint
  sets** of length `max(60, windowMin)`; `acceptsPerHour` unions the last
  `windowMin` minutes (namespace `MicroHeat` below).

Both share the minute bookkeeping: `lastAbsMinute` plus an `advanceTo`
that zeroes every bucket between the last seen minute and the current one.
With a fixed configuration the rings never change length, so the source's
`ensureRingSize` (which only acts when `config.heat.windowMin` changes) is
the identity and is not modelled. -/

/-- `Math.floor(ts / 60000)`: with `ts : ℤ`, Euclidean division by the
positive constant `60000` is exactly floor division. -/
def minuteOf (ts : ℤ) : ℤ := ts / 60000

/-- The index expression `((m % len) + len) % len` used by `advanceTo` and
the set-ring loops (JavaScript `%` is truncated remainder, `Int.tmod`). -/
def jsIdx (m : ℤ) (len : ℕ) : ℕ := (((m.tmod len) + len).tmod len).toNat

/-- The `advanceTo` zeroing loop, one minute at a time:
`for (m = last+1; m <= minute; m++) ring[((m % len) + len) % len] = zero`. -/
def advanceLoop {α : Type} (zero : α) : List α → ℤ → ℕ → List α
  | ring, _, 0 => ring
  | ring, last, fuel + 1 =>
      advanceLoop zero (ring.set (jsIdx (last + 1) ring.length) zero) (last + 1) fuel

/-- `advanceTo(minute)` of both heat files: no-op when `minute ≤
lastAbsMinute`, else zero the buckets for minutes `lastAbsMinute+1 ..
minute` and move `lastAbsMinute` forward. -/
def advanceTo {α : Type} (zero : α) (ring : List α) (last minute : ℤ) :
    List α × ℤ :=
  if minute ≤ last then (ring, last)
  else (advanceLoop zero ring last (minute - last).toNat, minute)

/-- `{score, buyers}` pairs of the heat configuration
(`loosenDelta`/`tightenDelta`/`floor`/`ceil`). -/
structure DeltaCfg where
  score : ℤ
  buyers : ℤ
deriving DecidableEq, Repr

/-- `config.heat`. -/
structure HeatCfg where
  enabled : Bool
  windowMin : ℕ
  minAcceptsPerHr : ℚ
  maxAcceptsPerHr : ℚ
  loosenDelta : DeltaCfg
  tightenDelta : DeltaCfg
  floor : DeltaCfg
  ceil : DeltaCfg
deriving DecidableEq, Repr

/-- `config.entry` (the fields the entry engine and threshold logic read). -/
structure EntryCfg where
  minScore : ℤ
  apexScore : ℤ
  reevalCooldownSec : ℤ
  acceptCooldownSec : ℤ
  holdTtlSec : ℤ
  holdMaxReevals : ℤ
  minObsBuyers : ℤ
  minObsUnique : ℤ
deriving DecidableEq, Repr

/-- The slice of the process-wide `config` used by the modelled modules. -/
structure Config where
  dryRun : Bool
  entry : EntryCfg
  heat : HeatCfg
deriving DecidableEq, Repr

/-- `HeatBand`. -/
inductive HeatBand where
  | COLD
  | NEUTRAL
  | HOT
deriving DecidableEq, Repr

/-- Result of `getHeat`. -/
structure HeatInfo where
  band : HeatBand
  acceptsPerHr : ℚ
  scoreDelta : ℤ
  buyersDelta : ℤ
deriving DecidableEq, Repr

/-- Band selection of `getHeat` (identical in both heat files):
`COLD` on `aPerHr < min`, `HOT` on `aPerHr > max`, else `NEUTRAL`. -/
def bandOf (cfg : HeatCfg) (aPerHr : ℚ) : HeatBand :=
  if aPerHr < cfg.minAcceptsPerHr then .COLD
  else if cfg.maxAcceptsPerHr < aPerHr then .HOT
  else .NEUTRAL

/-- Delta selection of `getHeat` (identical in both heat files). -/
def deltasOf (cfg : HeatCfg) : HeatBand → ℤ × ℤ
  | .COLD => (-|cfg.loosenDelta.score|, -|cfg.loosenDelta.buyers|)
  | .HOT => (|cfg.tightenDelta.score|, |cfg.tightenDelta.buyers|)
  | .NEUTRAL => (0, 0)

/-- Effective thresholds returned by `getEffectiveThresholds`. -/
structure EffThresholds where
  minScore : ℤ
  apexScore : ℤ
  minBuyers : ℤ
  minUnique : ℤ
deriving DecidableEq, Repr

namespace MarketHeat

/-- Module state of `src/market/heat.ts`: a ring of per-minute accept
counts plus the last wall-clock minute seen. -/
structure State where
  ring : List ℕ
  lastAbsMinute : ℤ
deriving DecidableEq, Repr

/-- `new Array(Math.max(1, windowMin)).fill(0)` with
`lastAbsMinute = Math.floor(Date.now()/60000) = m0` at module load. -/
def initState (cfg : HeatCfg) (m0 : ℤ) : State :=
  { ring := List.replicate (max 1 cfg.windowMin) 0, lastAbsMinute := m0 }

/-- `recordAccept(ts)` of `heat.ts` (lines 39–46): advance, then
`ring[m % ring.length] += 1`.  For a negative minute JavaScript's `m %
len` is negative and `ring[negative] += 1` creates a non-index property
that `reduce` never sees, so the ring is modelled as unchanged then. -/
def recordAccept (cfg : HeatCfg) (s : State) (ts : ℤ) : State :=
  if !cfg.enabled then s
  else
    let m := minuteOf ts
    let rl := advanceTo 0 s.ring s.lastAbsMinute m
    let idx := m.tmod rl.1.length
    if 0 ≤ idx then
      { ring := rl.1.set idx.toNat (rl.1.getD idx.toNat 0 + 1), lastAbsMinute := rl.2 }
    else
      { ring := rl.1, lastAbsMinute := rl.2 }

/-- `getAcceptsPerHour(nowTs)` of `heat.ts` (lines 48–56): advance, sum the
whole ring, scale by `60 / max(1, windowMin)`. -/
def getAcceptsPerHour (cfg : HeatCfg) (s : State) (ts : ℤ) : ℚ × State :=
  if !cfg.enabled then (0, s)
  else
    let m := minuteOf ts
    let rl := advanceTo 0 s.ring s.lastAbsMinute m
    ((rl.1.sum : ℚ) * (60 / max 1 (cfg.windowMin : ℚ)),
      { ring := rl.1, lastAbsMinute := rl.2 })

/-- `getHeat(nowTs)` of `heat.ts` (lines 58–81). -/
def getHeat (cfg : HeatCfg) (s : State) (ts : ℤ) : HeatInfo × State :=
  if !cfg.enabled then
    ({ band := .NEUTRAL, acceptsPerHr := 0, scoreDelta := 0, buyersDelta := 0 }, s)
  else
    let as' := getAcceptsPerHour cfg s ts
    let band := bandOf cfg as'.1
    let d := deltasOf cfg band
    ({ band := band, acceptsPerHr := as'.1, scoreDelta := d.1, buyersDelta := d.2 }, as'.2)

/-- `getEffectiveThresholds(nowTs)` of `heat.ts` (lines 87–111).  Note the
heat `scoreDelta` is applied to `apexScore` as well. -/
def getEffectiveThresholds (cfg : Config) (s : State) (ts : ℤ) :
    EffThresholds × State :=
  let hs := getHeat cfg.heat s ts
  ({ minScore := clampZ (cfg.entry.minScore + hs.1.scoreDelta)
        cfg.heat.floor.score cfg.heat.ceil.score,
     apexScore := clampZ (cfg.entry.apexScore + hs.1.scoreDelta)
        cfg.heat.floor.score cfg.heat.ceil.score,
     minBuyers := clampZ (cfg.entry.minObsBuyers + hs.1.buyersDelta)
        cfg.heat.floor.buyers cfg.heat.ceil.buyers,
     minUnique := clampZ (cfg.entry.minObsUnique + hs.1.buyersDelta)
        (max 0 (cfg.heat.floor.buyers - 1)) (max 0 (cfg.heat.ceil.buyers - 2)) },
    hs.2)

end MarketHeat

namespace MicroHeat

/-- Module state of the distinct-mint controller embedded in
`firstNBlocks.ts`: a ring of per-minute mint sets. -/
structure State where
  ring : List (Finset String)
  lastAbsMinute : ℤ
deriving DecidableEq

/-- `new Array(Math.max(60, windowMin)).map(() => new Set())` with
`lastAbsMinute = m0` at load (`MIN_RING_MINUTES = 60`). -/
def initState (cfg : HeatCfg) (m0 : ℤ) : State :=
  { ring := List.replicate (max 60 cfg.windowMin) ∅, lastAbsMinute := m0 }

/-- `recordAccept(mint, ts)` of the distinct-mint controller (lines
182–189): advance, then `ring[m % ring.length].add(mint)`. -/
def recordAccept (cfg : HeatCfg) (s : State) (mint : String) (ts : ℤ) : State :=
  if !cfg.enabled then s
  else
    let m := minuteOf ts
    let rl := advanceTo ∅ s.ring s.lastAbsMinute m
    let idx := m.tmod rl.1.length
    if 0 ≤ idx then
      { ring := rl.1.set idx.toNat (insert mint (rl.1.getD idx.toNat ∅)),
        lastAbsMinute := rl.2 }
    else
      { ring := rl.1, lastAbsMinute := rl.2 }

/-- `getAcceptsPerHour(nowTs)` of the distinct-mint controller (lines
191–207): advance, union the buckets of the last `min(window, ring.length)`
minutes, scale the distinct count by `60 / max(1, windowMin)`. -/
def getAcceptsPerHour (cfg : HeatCfg) (s : State) (ts : ℤ) : ℚ × State :=
  if !cfg.enabled then (0, s)
  else
    let m := minuteOf ts
    let rl := advanceTo ∅ s.ring s.lastAbsMinute m
    let window := max 1 cfg.windowMin
    let seen := (Finset.range (min window rl.1.length)).biUnion
      (fun i => rl.1.getD (jsIdx (m - i) rl.1.length) ∅)
    ((seen.card : ℚ) * (60 / max 1 (cfg.windowMin : ℚ)),
      { ring := rl.1, lastAbsMinute := rl.2 })

/-- `getHeat(nowTs)` of the distinct-mint controller (lines 209–232),
identical formula to `MarketHeat.getHeat`. -/
def getHeat (cfg : HeatCfg) (s : State) (ts : ℤ) : HeatInfo × State :=
  if !cfg.enabled then
    ({ band := .NEUTRAL, acceptsPerHr := 0, scoreDelta := 0, buyersDelta := 0 }, s)
  else
    let as' := getAcceptsPerHour cfg s ts
    let band := bandOf cfg as'.1
    let d := deltasOf cfg band
    ({ band := band, acceptsPerHr := as'.1, scoreDelta := d.1, buyersDelta := d.2 }, as'.2)

/-- `getEffectiveThresholds(nowTs)` of the distinct-mint controller
(lines 238–277): cold-tape floors apply to `minScore`/`minBuyers`/
`minUnique`, while `apexScore` is clamped to the config bounds with **no**
heat delta. -/
def getEffectiveThresholds (cfg : Config) (s : State) (ts : ℤ) :
    EffThresholds × State :=
  let hs := getHeat cfg.heat s ts
  let coldFloorScore := max cfg.heat.floor.score 40
  let coldFloorBuyers := max cfg.heat.floor.buyers 5
  let coldFloorUnique := max 4 (max 0 (cfg.heat.floor.buyers - 1))
  let effFloorScoreForMin :=
    if hs.1.band = .COLD then coldFloorScore else cfg.heat.floor.score
  let effFloorBuyersForMin :=
    if hs.1.band = .COLD then coldFloorBuyers else cfg.heat.floor.buyers
  let effFloorUniqueForMin :=
    if hs.1.band = .COLD then coldFloorUnique else max 0 (cfg.heat.floor.buyers - 1)
  ({ minScore := clampZ (cfg.entry.minScore + hs.1.scoreDelta)
        effFloorScoreForMin cfg.heat.ceil.score,
     apexScore := clampZ cfg.entry.apexScore cfg.heat.floor.score cfg.heat.ceil.score,
     minBuyers := clampZ (cfg.entry.minObsBuyers + hs.1.buyersDelta)
        effFloorBuyersForMin cfg.heat.ceil.buyers,
     minUnique := clampZ (cfg.entry.minObsUnique + hs.1.buyersDelta)
        effFloorUniqueForMin (max 0 (cfg.heat.ceil.buyers - 2)) },
    hs.2)

end MicroHeat

def RingInv {α : Type} (d : α) (content : ℤ → α) (ring : List α) (M : ℤ) : Prop :=
  ∀ μ : ℤ, M - ring.length < μ → μ ≤ M → ring.getD (jsIdx μ ring.length) d = content μ

/-! ### Heat call traces

To compare the two `acceptsPerHour` variants we run both on a common
sequence of `recordAccept` / `getAcceptsPerHour` calls (the count variant
ignores the mint argument — its `recordAccept(ts)` takes only the
timestamp).  `recordsOf` is the ghost list of `(mint, minute)` pairs of
the records processed so far. -/

/-- One heat-controller call: an accept record or an accepts-per-hour
query. -/
inductive HeatOp where
  | record (mint : String) (ts : ℤ)
  | query (ts : ℤ)
deriving DecidableEq, Repr

/-- The wall-clock minute of a call. -/
def HeatOp.minute : HeatOp → ℤ
  | .record _ ts => minuteOf ts
  | .query ts => minuteOf ts

/-- Ghost record list of a trace: `(mint, minute)` per `record` call. -/
def recordsOf : List HeatOp → List (String × ℤ)
  | [] => []
  | .record mint ts :: rest => (mint, minuteOf ts) :: recordsOf rest
  | .query _ :: rest => recordsOf rest

/-- Wall-clock monotonicity of a trace starting from minute `m`. -/
def MinutesMono : ℤ → List HeatOp → Prop
  | _, [] => True
  | m, op :: rest => m ≤ op.minute ∧ MinutesMono op.minute rest

/-- Number of records at exactly minute `μ`. -/
def countAt (recs : List (String × ℤ)) (μ : ℤ) : ℕ :=
  (recs.filter (fun r => r.2 = μ)).length

/-- Set of mints recorded at exactly minute `μ`. -/
def mintsAt (recs : List (String × ℤ)) (μ : ℤ) : Finset String :=
  ((recs.filter (fun r => r.2 = μ)).map Prod.fst).toFinset

/-- Set of distinct mints recorded in the window `(m - w, m]`. -/
def mintsInWindow (recs : List (String × ℤ)) (m : ℤ) (w : ℕ) : Finset String :=
  ((recs.filter (fun r => decide (m - w < r.2) && decide (r.2 ≤ m))).map Prod.fst).toFinset

namespace MarketHeat

/-- Run a trace through the count-variant state. -/
def runOps (cfg : HeatCfg) (s : State) : List HeatOp → State
  | [] => s
  | .record _ ts :: rest => runOps cfg (recordAccept cfg s ts) rest
  | .query ts :: rest => runOps cfg (getAcceptsPerHour cfg s ts).2 rest

/-- The values returned by the count variant at the trace's query calls. -/
def runOuts (cfg : HeatCfg) (s : State) : List HeatOp → List ℚ
  | [] => []
  | .record _ ts :: rest => runOuts cfg (recordAccept cfg s ts) rest
  | .query ts :: rest =>
      (getAcceptsPerHour cfg s ts).1 ::
        runOuts cfg (getAcceptsPerHour cfg s ts).2 rest

end MarketHeat

namespace MicroHeat

/-- Run a trace through the distinct-mint-variant state. -/
def runOps (cfg : HeatCfg) (s : State) : List HeatOp → State
  | [] => s
  | .record mint ts :: rest => runOps cfg (recordAccept cfg s mint ts) rest
  | .query ts :: rest => runOps cfg (getAcceptsPerHour cfg s ts).2 rest

/-- The values returned by the distinct-mint variant at the query calls. -/
def runOuts (cfg : HeatCfg) (s : State) : List HeatOp → List ℚ
  | [] => []
  | .record mint ts :: rest => runOuts cfg (recordAccept cfg s mint ts) rest
  | .query ts :: rest =>
      (getAcceptsPerHour cfg s ts).1 ::
        runOuts cfg (getAcceptsPerHour cfg s ts).2 rest

end MicroHeat

/-- The specification's value at each query: distinct mints recorded in the
last `windowMin` minutes, scaled by `60 / windowMin`. -/
def specOuts (cfg : HeatCfg) : List (String × ℤ) → List HeatOp → List ℚ
  | _, [] => []
  | recs, .record mint ts :: rest => specOuts cfg (recs ++ [(mint, minuteOf ts)]) rest
  | recs, .query ts :: rest =>
      ((mintsInWindow recs (minuteOf ts) (max 1 cfg.windowMin)).card : ℚ)
          * (60 / max 1 (cfg.windowMin : ℚ)) ::
        specOuts cfg recs rest

/-- Invariant tying a count-ring state to the ghost records: correct ring
length, nonnegative clock, all records in the past, and every live bucket
holding the number of records of its minute. -/
def MInv (cfg : HeatCfg) (recs : List (String × ℤ)) (s : MarketHeat.State) : Prop :=
  s.ring.length = max 1 cfg.windowMin ∧
  0 ≤ s.lastAbsMinute ∧
  (∀ r ∈ recs, 0 ≤ r.2 ∧ r.2 ≤ s.lastAbsMinute) ∧
  RingInv 0 (countAt recs) s.ring s.lastAbsMinute

/-- Invariant tying a distinct-mint-ring state to the ghost records. -/
def UInv (cfg : HeatCfg) (recs : List (String × ℤ)) (s : MicroHeat.State) : Prop :=
  s.ring.length = max 60 cfg.windowMin ∧
  0 ≤ s.lastAbsMinute ∧
  (∀ r ∈ recs, 0 ≤ r.2 ∧ r.2 ≤ s.lastAbsMinute) ∧
  RingInv ∅ (mintsAt recs) s.ring s.lastAbsMinute

/-- A concrete heat configuration for counterexample runs: enabled,
60-minute window, band thresholds 1 and 5, loosen/tighten deltas
`{score:10, buyers:1}` / `{score:5, buyers:1}`, floors 0 and ceilings 100. -/
def cexHeat7 : HeatCfg :=
  { enabled := true, windowMin := 60, minAcceptsPerHr := 1, maxAcceptsPerHr := 5,
    loosenDelta := ⟨10, 1⟩, tightenDelta := ⟨5, 1⟩,
    floor := ⟨0, 0⟩, ceil := ⟨100, 100⟩ }

/-- A complete configuration around `cexHeat7`: entry thresholds
`minScore 60`, `apexScore 80`, cooldowns `reeval 15 s` / `accept 120 s`,
no hold TTL, observation minima `buyers 4` / `unique 2`. -/
def cexCfg7 : Config :=
  { dryRun := true,
    entry := ⟨60, 80, 15, 120, 0, 0, 4, 2⟩,
    heat := cexHeat7 }

/-- `cexHeat7` with a one-minute window. -/
def cexHeat8 : HeatCfg :=
  { cexHeat7 with windowMin := 1 }

/-- A non-monotone trace: an accept at minute 100, an accept at minute 50,
then a query at minute 100.  Each mint is recorded exactly once. -/
def cexTrace8 : List HeatOp :=
  [.record "A" 6000000, .record "B" 3000000, .query 6000000]

/-! ## Entry engine (`src/trader/entryEngine.ts`)

Per-mint decision state machine.  Mutable module state (`states`, the
`orders` table, the `softRejectEvents`/`fatalRejectEvents` arrays) is an
explicit `EngineState`; calls to the collaborating modules are logged:
`heatCalls` records every `recordHeatAccept(mint, nowTs)` invocation and
`alertCalls` every `sendDecisionAlert` invocation (with the decision
status).  Per call, `snapshot` stands for `getSnapshot(mint)`, `eff` for
`getEffectiveThresholds(nowTs)` and the two boosts for the cohort /
deployer lookups inside `convictionFromMicro` — all computed by modules
outside the engine and therefore supplied as oracle inputs.

`evaluateMint` itself is split as `evaluateMintCore` applied to the three
values the engine derives from the snapshot — `safetyGate(snapshot).pass`,
`snapshot.sameFunderRatio > 0.75` and the conviction score — so that the
control flow is a rational-free function of those values. -/

/-- `LastDecision`. -/
inductive LastDecision where
  | hold
  | rejectedSoft
  | rejectedFatal
  | acceptedSmall
  | acceptedApex
deriving DecidableEq, Repr

/-- `MintDecisionState`. -/
structure MintDecisionState where
  firstSeenTs : ℤ
  lastEvalTs : ℤ
  bestScore : ℤ
  lastDecision : LastDecision
  lastAcceptedTs : Option ℤ
  stickyFatal : Bool
  reevalCount : ℤ
  ttlExpired : Bool
deriving DecidableEq, Repr

/-- The fresh state installed on first evaluation (`evaluateMint` line 70). -/
def initDecisionState (nowTs : ℤ) : MintDecisionState :=
  { firstSeenTs := nowTs, lastEvalTs := 0, bestScore := 0,
    lastDecision := .hold, lastAcceptedTs := none, stickyFatal := false,
    reevalCount := 0, ttlExpired := false }

/-- A row of the `orders` table as written by the entry engine (the
constant `side`/`quantity_base`/`price NULL`/`position_id NULL` columns and
the JSON `notes` blob are omitted; the engine writes `side='buy'` and
`quantity_base=0` on every row). -/
structure OrderRow where
  market : String
  type : String
  status : String
  mint : String
  origin : String
  decidedTs : ℤ
  sizeTier : String
deriving DecidableEq, Repr

/-- Conflict test of the partial unique index
`idx_orders_unique_unitary_entry ON orders(market, type) WHERE
type='unitary-entry'`: a new row conflicts iff it is a `unitary-entry` row
and a `unitary-entry` row for the same market exists. -/
def conflictsUnitary (db : List OrderRow) (row : OrderRow) : Bool :=
  decide (row.type = "unitary-entry") &&
    db.any (fun r => decide (r.market = row.market ∧ r.type = "unitary-entry"))

/-- `INSERT OR IGNORE INTO orders ...` (fatal-reject path, lines 116–133):
on an index conflict the insert is dropped. -/
def insertOrIgnore (db : List OrderRow) (row : OrderRow) : List OrderRow :=
  if conflictsUnitary db row then db else db ++ [row]

/-- The `DO UPDATE SET status, size_tier, decided_ts, notes WHERE
orders.type='unitary-entry' AND orders.status!='dry_run'` applied to the
(unique) conflicting row. -/
def applyUpd : List OrderRow → OrderRow → List OrderRow
  | [], _ => []
  | r :: rest, row =>
      if r.market = row.market ∧ r.type = "unitary-entry" then
        (if r.status ≠ "dry_run" then
          { r with
            status := row.status,
            sizeTier := row.sizeTier,
            decidedTs := row.decidedTs }
        else r) :: rest
      else r :: applyUpd rest row

/-- `INSERT ... ON CONFLICT(market, type) DO UPDATE ...` (accept path,
lines 191–215). -/
def upsertRow (db : List OrderRow) (row : OrderRow) : List OrderRow :=
  if conflictsUnitary db row then applyUpd db row else db ++ [row]

/-- Replace the value stored under `mint`, or append it
(`states.set(mint, st)` on a JS `Map`; in the source the map entry is a
mutable object, so every branch of `evaluateMint` that mutates `st` is
modelled by writing the updated state back). -/
def setState (l : List (String × MintDecisionState)) (mint : String)
    (st : MintDecisionState) : List (String × MintDecisionState) :=
  match l with
  | [] => [(mint, st)]
  | (k, v) :: rest =>
      if k = mint then (mint, st) :: rest else (k, v) :: setState rest mint st

/-- JavaScript truthiness guard of the accept-upgrade cooldown
(`st.lastAcceptedTs && (nowTs - st.lastAcceptedTs) < acceptCdMs`, line
169): an undefined or zero `lastAcceptedTs` is falsy. -/
def acceptCooldownActive (lastAcceptedTs : Option ℤ) (nowTs cd : ℤ) : Bool :=
  match lastAcceptedTs with
  | some t => decide (t ≠ 0) && decide (nowTs - t < cd)
  | none => false

/-- The engine module's mutable state plus the logs of its outgoing calls. -/
structure EngineState where
  states : List (String × MintDecisionState)
  orders : List OrderRow
  heatCalls : List (String × ℤ)
  alertCalls : List (String × String × ℤ)
  softRejectEvents : List ℤ
  fatalRejectEvents : List ℤ
deriving DecidableEq, Repr

/-- Fresh module state: empty maps, empty `orders` table, no calls made. -/
def initEngine : EngineState :=
  { states := [], orders := [], heatCalls := [], alertCalls := [],
    softRejectEvents := [], fatalRejectEvents := [] }

/-- One `evaluateMint(mint, origin, nowTs, creator?)` invocation together
with its oracle inputs (see the section comment). -/
structure EvalInput where
  mint : String
  origin : String
  nowTs : ℤ
  snapshot : MicroSnapshot
  eff : EffThresholds
  cohortBoost : ℤ
  grBoost : ℤ
deriving DecidableEq, Repr

/-- The decision state a call starts from: the stored one, or the fresh
one installed for an unknown mint (`evaluateMint` lines 68–72). -/
def stOf (s : EngineState) (inp : EvalInput) : MintDecisionState :=
  (s.states.lookup inp.mint).getD (initDecisionState inp.nowTs)

/-- The re-evaluation cooldown guard (line 77). -/
@[reducible] def cooldownBlocked (cfg : Config) (st : MintDecisionState)
    (nowTs : ℤ) : Prop :=
  st.lastEvalTs > 0 ∧ nowTs - st.lastEvalTs < orD cfg.entry.reevalCooldownSec 15 * 1000

/-- Lines 74–75: `st.lastEvalTs = nowTs; st.reevalCount += 1`. -/
def bumpEval (st : MintDecisionState) (nowTs : ℤ) : MintDecisionState :=
  { st with lastEvalTs := nowTs, reevalCount := st.reevalCount + 1 }

/-- The hold-TTL guard (lines 82–93), on the state after `bumpEval` (the
source checks `reevalCount` after incrementing it). -/
@[reducible] def ttlFires (cfg : Config) (st : MintDecisionState)
    (nowTs : ℤ) : Prop :=
  ¬st.ttlExpired ∧ st.lastDecision = .hold ∧
    ((max 0 (cfg.entry.holdTtlSec * 1000) > 0 ∧
        nowTs - st.firstSeenTs > max 0 (cfg.entry.holdTtlSec * 1000)) ∨
      (max 0 cfg.entry.holdMaxReevals > 0 ∧
        st.reevalCount ≥ max 0 cfg.entry.holdMaxReevals))

/-- The deferred observation gate (line 103). -/
@[reducible] def obsGateFails (inp : EvalInput) : Prop :=
  (inp.snapshot.buyers : ℤ) < orD inp.eff.minBuyers 0 ∨
    (inp.snapshot.uniqueFunders : ℤ) < orD inp.eff.minUnique 0

/-- The accept-tier ladder (lines 156–160). -/
def tierOf (eff : EffThresholds) (score : ℤ) : String :=
  if score ≥ orD eff.apexScore 75 then "APEX"
  else if score ≥ orD eff.minScore 50 then "SMALL"
  else "REJECT"

/-- Line 152: `st.bestScore = Math.max(st.bestScore, conv.score)`. -/
def bumpScore (st : MintDecisionState) (score : ℤ) : MintDecisionState :=
  { st with bestScore := max st.bestScore score }

/-- The APEX-upgrade cooldown guard (lines 168–172). -/
@[reducible] def upgradeCooldownHit (cfg : Config) (st : MintDecisionState)
    (nowTs : ℤ) (tier : String) : Prop :=
  tier = "APEX" ∧ st.lastDecision = .acceptedSmall ∧
    acceptCooldownActive st.lastAcceptedTs nowTs
      (orD cfg.entry.acceptCooldownSec 120 * 1000) = true

/-- The single-accept guard (lines 176–180): already accepted and not a
SMALL-to-APEX upgrade. -/
@[reducible] def alreadyAcceptedNoUpgrade (st : MintDecisionState)
    (tier : String) : Prop :=
  (st.lastDecision = .acceptedSmall ∨ st.lastDecision = .acceptedApex) ∧
    ¬(st.lastDecision = .acceptedSmall ∧ tier = "APEX")

/-- The rejection row the fatal path inserts (lines 116–133). -/
def fatalRow (inp : EvalInput) : OrderRow :=
  { market := inp.mint, type := "unitary-entry", status := "rejected",
    mint := inp.mint, origin := inp.origin, decidedTs := inp.nowTs,
    sizeTier := "REJECT" }

/-- The accepted-order row written on the accept path (lines 191–215). -/
def acceptRow (inp : EvalInput) (status tier : String) : OrderRow :=
  { market := inp.mint, type := "unitary-entry", status := status,
    mint := inp.mint, origin := inp.origin, decidedTs := inp.nowTs,
    sizeTier := tier }

/-- `evaluateMint` control flow (`entryEngine.ts` lines 66–233) as a
function of the three snapshot-derived values:
`gatePass = safetyGate(snapshot, origin).pass`,
`fatal = (snapshot.sameFunderRatio > 0.75)` and
`score = convictionFromMicro(...).score`.  Everything else follows the
source line by line; `x || d` on numeric config reads is `orD`; the named
guards above carry their source lines. -/
def evaluateMintCore (cfg : Config) (s : EngineState) (inp : EvalInput)
    (gatePass : Bool) (fatal : Bool) (score : ℤ) : EngineState :=
  let st := stOf s inp
  if st.stickyFatal then
    { s with states := setState s.states inp.mint st }
  else if cooldownBlocked cfg st inp.nowTs then
    { s with states := setState s.states inp.mint st }
  else
    let st := bumpEval st inp.nowTs
    if ttlFires cfg st inp.nowTs then
      let st := { st with lastDecision := .rejectedSoft, ttlExpired := true }
      { s with
        states := setState s.states inp.mint st,
        softRejectEvents := s.softRejectEvents ++ [inp.nowTs] }
    else if obsGateFails inp then
      let st := { st with lastDecision := .hold }
      { s with states := setState s.states inp.mint st }
    else if fatal then
      let st := { st with lastDecision := .rejectedFatal, stickyFatal := true }
      { s with
        states := setState s.states inp.mint st,
        fatalRejectEvents := s.fatalRejectEvents ++ [inp.nowTs],
        orders := insertOrIgnore s.orders (fatalRow inp),
        alertCalls := s.alertCalls ++ [(inp.mint, "rejected_fatal", inp.nowTs)] }
    else if !gatePass then
      let st := { st with lastDecision := .rejectedSoft }
      { s with
        states := setState s.states inp.mint st,
        softRejectEvents := s.softRejectEvents ++ [inp.nowTs] }
    else
      let st := bumpScore st score
      let tier := tierOf inp.eff score
      if tier = "REJECT" then
        let st := { st with lastDecision := .hold }
        { s with states := setState s.states inp.mint st }
      else if upgradeCooldownHit cfg st inp.nowTs tier then
        { s with states := setState s.states inp.mint st }
      else if alreadyAcceptedNoUpgrade st tier then
        { s with states := setState s.states inp.mint st }
      else
        let status := if cfg.dryRun then "dry_run" else "pending"
        let wasAccepted : Bool :=
          decide (st.lastDecision = .acceptedSmall ∨ st.lastDecision = .acceptedApex)
        let st := { st with
          lastAcceptedTs := some inp.nowTs,
          lastDecision := if tier = "APEX" then .acceptedApex else .acceptedSmall }
        { s with
          states := setState s.states inp.mint st,
          orders := upsertRow s.orders (acceptRow inp status tier),
          alertCalls := s.alertCalls ++ [(inp.mint, status, inp.nowTs)],
          heatCalls := s.heatCalls ++
            (if status = "dry_run" ∧ !wasAccepted then [(inp.mint, inp.nowTs)]
              else []) }

/-- `evaluateMint`: the core applied to the values the source computes
from the snapshot. -/
def evaluateMint (cfg : Config) (s : EngineState) (inp : EvalInput) : EngineState :=
  evaluateMintCore cfg s inp (safetyGate inp.snapshot).pass
    (decide (inp.snapshot.sameFunderRatio > 75/100))
    (convictionFromMicro inp.snapshot inp.cohortBoost inp.grBoost)

/-- A sequence of `evaluateMint` calls from the module's fresh state. -/
def runEngine (cfg : Config) (l : List EvalInput) : EngineState :=
  l.foldl (evaluateMint cfg) initEngine

/-! ### Concrete engine scenarios

`effC` is the effective-threshold vector the heat controller returns for
the base config used in the scenarios (`minScore 60, apexScore 80,
minBuyers 4, minUnique 2`); the snapshots are chosen so that
`convictionFromMicro` scores them 80 (`snapA`), 0 (`snapZero`), 70
(`snapB`) and 60-with-fatal-ratio (`snapF`). -/

def effC : EffThresholds := ⟨60, 80, 4, 2⟩

/-- Scores 80 (buyers 30 + unique 20 + jumps 10 + depth 20): APEX at
`apexScore = 80`. -/
def snapA : MicroSnapshot := ⟨8, 6, 3/10, 1, 4/10, 0⟩

/-- An empty tape: fails the deferred observation gate. -/
def snapZero : MicroSnapshot := ⟨0, 0, 0, 0, 0, 0⟩

/-- Scores 70 (no price jumps): SMALL at `minScore = 60`. -/
def snapB : MicroSnapshot := ⟨8, 6, 3/10, 0, 4/10, 0⟩

/-- `sameFunderRatio = 0.8 > 0.75`: trips the fatal gate. -/
def snapF : MicroSnapshot := ⟨8, 6, 4/5, 1, 4/10, 0⟩

/-- Live config: `dryRun = false`, `entry = { minScore 60, apexScore 80,
reevalCooldownSec 15, acceptCooldownSec 120, holdTtlSec 0,
holdMaxReevals 0, minObsBuyers 4, minObsUnique 2 }`. -/
def cfgLive : Config :=
  { dryRun := false, entry := ⟨60, 80, 15, 120, 0, 0, 4, 2⟩, heat := cexHeat7 }

/-- The same config with `dryRun = true`. -/
def cfgDry : Config := { cfgLive with dryRun := true }

def evA : EvalInput := ⟨"M", "pump", 1000, snapA, effC, 0, 0⟩

def evZ : EvalInput := ⟨"M", "pump", 30000, snapZero, effC, 0, 0⟩

def evB : EvalInput := ⟨"M", "pump", 60000, snapB, effC, 0, 0⟩

def evF : EvalInput := ⟨"M", "pump", 30000, snapF, effC, 0, 0⟩

def evB1 : EvalInput := ⟨"M", "pump", 1000, snapB, effC, 0, 0⟩

def evA3 : EvalInput := ⟨"M", "pump", 200000, snapA, effC, 0, 0⟩

/-! ## Launch watcher pipeline (`src/feeds/solanaLaunchWatcher.ts`)

One `onLogs` callback run (lines 167–252): `parseLogs` (lines 265–293)
scans the joined log text with the base58 regex — the resulting candidate
list is an oracle input — takes the FIRST candidate as the mint and drops
the batch unless `isValidMint` holds; the batch is then de-duplicated per
signature (the PARSED mint is recorded, lines 173–189), the mint is
optionally REPLACED by the tx-introspection result (`evt.mint =
info.mint`, line 196; the RPC-derived result is an oracle and is NOT
re-validated), optionally screened by `isRealSplMint` (an RPC oracle
boolean), and finally fed to the module `trackFirstN` (which checks only
`!mint`), to `evaluateMint`, and to the `tokens` upsert of `handleEvent`.
`hitCohort`, the metric counters and the 60-second signature pruning
touch none of the claim's four mint-keyed stores and are omitted. -/

/-- One character of the base58 alphabet `[1-9A-HJ-NP-Za-km-z]`. -/
def isB58Char (c : Char) : Bool :=
  (decide ('1' ≤ c) && decide (c ≤ '9')) ||
  (decide ('A' ≤ c) && decide (c ≤ 'H')) ||
  (decide ('J' ≤ c) && decide (c ≤ 'N')) ||
  (decide ('P' ≤ c) && decide (c ≤ 'Z')) ||
  (decide ('a' ≤ c) && decide (c ≤ 'k')) ||
  (decide ('m' ≤ c) && decide (c ≤ 'z'))

/-- `isBase58Len32to44`: `/^[1-9A-HJ-NP-Za-km-z]{32,44}$/.test(s)`
(line 42). -/
def isBase58Len32to44 (s : String) : Bool :=
  decide (32 ≤ s.length) && decide (s.length ≤ 44) && s.toList.all isB58Char

/-- `DENYLIST_IDS` (lines 33–40). -/
def DENYLIST_IDS : List String :=
  ["ComputeBudget111111111111111111111111111111",
   "11111111111111111111111111111111",
   "Stake11111111111111111111111111111111111111",
   "Vote111111111111111111111111111111111111111",
   "Sysvar1111111111111111111111111111111111111",
   "Config1111111111111111111111111111111111111"]

/-- `isValidMint` (lines 46–52); `subscribed` is the set the watcher
subscribes to (`isSubscribedProgram`). -/
def isValidMint (subscribed : List String) (addr : String) : Bool :=
  !(decide (addr = "")) && isBase58Len32to44 addr &&
    !(DENYLIST_IDS.contains addr) && !(subscribed.contains addr)

/-- The watcher-level configuration: `config.txLookup.mode`,
`config.mintVerify.mode` and the subscribed program ids. -/
structure PipeCfg where
  txMode : String
  mintVerifyMode : String
  subscribed : List String
deriving DecidableEq, Repr

/-- The mint-keyed stores the claim ranges over: the watcher's
per-signature de-dup map, the tracker's `states` map, the entry engine's
module state (decision states and `orders` table) and the key set of the
`tokens` table. -/
structure WatcherState where
  seenSigs : List (String × List String)
  micro : List (String × MintState)
  engine : EngineState
  tokens : List String
deriving DecidableEq, Repr

def initWatcher : WatcherState := ⟨[], [], initEngine, []⟩

/-- One log batch with its oracle inputs: origin and signature of the
batch, the regex candidate scan of `parseLogs`, the introspection RPC
result (`extractMintAndBuyerFromSignature(...).mint`), the
`isRealSplMint` RPC verdict, the `extractFunder`/`extractPrice` scans of
`trackFirstN`, and the engine's threshold/boost oracles. -/
structure BatchIn where
  origin : String
  sig : Option String
  candidates : List String
  ts : ℤ
  introMint : Option String
  verifyOk : Bool
  funder : Option String
  price : Option ℚ
  eff : EffThresholds
  cohortBoost : ℤ
  grBoost : ℤ
deriving DecidableEq, Repr

/-- `states.set(mint, st)` on the tracker's JS `Map`. -/
def setMicro (l : List (String × MintState)) (mint : String)
    (st : MintState) : List (String × MintState) :=
  match l with
  | [] => [(mint, st)]
  | (k, v) :: rest =>
      if k = mint then (mint, st) :: rest else (k, v) :: setMicro rest mint st

/-- `rec.mints.add(evt.mint)` under `seenMintsBySignature.get(sig)`
(lines 180–188). -/
def recordSig (l : List (String × List String)) (sig mint : String) :
    List (String × List String) :=
  match l with
  | [] => [(sig, [mint])]
  | (k, ms) :: rest =>
      if k = sig then (k, ms ++ [mint]) :: rest
      else (k, ms) :: recordSig rest sig mint

/-- `rec.mints.has(evt.mint)` (line 184): duplicate in this batch. -/
def sigDup (w : WatcherState) (b : BatchIn) (m0 : String) : Bool :=
  match b.sig with
  | some sig => ((w.seenSigs.lookup sig).getD []).contains m0
  | none => false

def sigRecord (w : WatcherState) (b : BatchIn) (m0 : String) :
    List (String × List String) :=
  match b.sig with
  | some sig => recordSig w.seenSigs sig m0
  | none => w.seenSigs

/-- Lines 192–204: when a signature is present, the origin is pumpfun and
`config.txLookup.mode !== 'off'`, a truthy introspection mint REPLACES the
parsed mint — with no `isValidMint` re-check. -/
def pipeMint (p : PipeCfg) (b : BatchIn) (m0 : String) : String :=
  if b.sig.isSome = true ∧ b.origin = "pumpfun" ∧ ¬p.txMode = "off" then
    match b.introMint with
    | some im => if im = "" then m0 else im
    | none => m0
  else m0

/-- Lines 205–236: the `eager`/`deferred`/`off` `isRealSplMint`
guardrails; `true` means the batch is dropped. -/
def dropVerify (cfg : Config) (p : PipeCfg) (w : WatcherState)
    (b : BatchIn) (m : String) : Bool :=
  if p.mintVerifyMode = "eager" then !b.verifyOk
  else if p.mintVerifyMode = "deferred" then
    let snap := getSnapshot (w.micro.lookup m)
    if (snap.buyers : ℤ) ≥ cfg.entry.minObsBuyers ∧
        (snap.uniqueFunders : ℤ) ≥ cfg.entry.minObsUnique ∧
        snap.sameFunderRatio ≤ 7/10 then !b.verifyOk
    else false
  else false

/-- The tail of the callback once the batch survives all drops: module
`trackFirstN` (guarded only by `!mint`), then `evaluateMint` on the
post-track snapshot, then the `tokens` upsert of `handleEvent`. -/
def ingest (cfg : Config) (w : WatcherState) (b : BatchIn) (m : String)
    (seen : List (String × List String)) : WatcherState :=
  let micro := if m = "" then w.micro
    else setMicro w.micro m (trackFirstN (w.micro.lookup m) b.ts b.funder b.price)
  let engine := evaluateMint cfg w.engine
    ⟨m, b.origin, b.ts, getSnapshot (micro.lookup m), b.eff,
      b.cohortBoost, b.grBoost⟩
  let tokens := if w.tokens.contains m then w.tokens else w.tokens ++ [m]
  ⟨seen, micro, engine, tokens⟩

/-- One `onLogs` callback run (lines 167–252). -/
def processBatch (cfg : Config) (p : PipeCfg) (w : WatcherState)
    (b : BatchIn) : WatcherState :=
  match b.candidates.head? with
  | none => w
  | some m0 =>
    if !isValidMint p.subscribed m0 then w
    else if sigDup w b m0 then w
    else
      let seen := sigRecord w b m0
      let m := pipeMint p b m0
      if dropVerify cfg p w b m then { w with seenSigs := seen }
      else ingest cfg w b m seen

/-- The claim's invariant: every mint stored in the microstructure map,
the engine decision-state map, the `orders` table (both as `market` and as
`mint`) and the `tokens` table passes `isValidMint`. -/
def WValid (sub : List String) (w : WatcherState) : Prop :=
  (∀ q ∈ w.micro, isValidMint sub q.1 = true) ∧
  (∀ q ∈ w.engine.states, isValidMint sub q.1 = true) ∧
  (∀ r ∈ w.engine.orders,
    isValidMint sub r.market = true ∧ isValidMint sub r.mint = true) ∧
  (∀ m ∈ w.tokens, isValidMint sub m = true)

def goodMint : String := "AAAAAAAAAAAAAAAAAAAAAAAAAAAAAAAA"

/-- The system program id: 32 base58 characters, on `DENYLIST_IDS`. -/
def denyMint : String := "11111111111111111111111111111111"

def pEvil : PipeCfg := ⟨"pumpfun_only", "off", []⟩

def pOff : PipeCfg := ⟨"off", "off", []⟩

/-- A pumpfun batch whose parsed first candidate is the valid `goodMint`
but whose tx-introspection result is the denylisted system program id. -/
def bEvil : BatchIn :=
  ⟨"pumpfun", some "S", [goodMint], 1000, some denyMint, true,
    some cexFunder, none, ⟨60, 80, 0, 0⟩, 0, 0⟩

def stEvil : MintState := trackFirstN none 1000 (some cexFunder) none

def evEvil : EvalInput :=
  ⟨denyMint, "pumpfun", 1000,
    getSnapshot ((setMicro [] denyMint stEvil).lookup denyMint),
    ⟨60, 80, 0, 0⟩, 0, 0⟩


/-- The conjunction of guards under which a call reaches the accept
write (`entryEngine.ts` lines 189–229): not sticky, not in cooldown, no
TTL fire, observation gate passed, fatal gate clear (`fatal = false`),
safety gate passed (`gatePass = true`), tier not REJECT, no APEX-upgrade
cooldown, and not already accepted without an upgrade. -/
@[reducible] def acceptReached (cfg : Config) (s : EngineState)
    (inp : EvalInput) (gatePass fatal : Bool) (score : ℤ) : Prop :=
  (stOf s inp).stickyFatal = false ∧
  ¬cooldownBlocked cfg (stOf s inp) inp.nowTs ∧
  ¬ttlFires cfg (bumpEval (stOf s inp) inp.nowTs) inp.nowTs ∧
  ¬obsGateFails inp ∧
  fatal = false ∧
  gatePass = true ∧
  ¬tierOf inp.eff score = "REJECT" ∧
  ¬upgradeCooldownHit cfg (bumpScore (bumpEval (stOf s inp) inp.nowTs) score)
    inp.nowTs (tierOf inp.eff score) ∧
  ¬alreadyAcceptedNoUpgrade (bumpScore (bumpEval (stOf s inp) inp.nowTs) score)
    (tierOf inp.eff score)


/-! ## Lemmas and claim theorems -/

lemma foldl_max_eq (l : List (String × ℕ)) (a : ℕ) :
    l.foldl (fun m p => max m p.2) a = max a (maxCount l) := by
  induction l generalizing a with
  | nil => simp [maxCount]
  | cons q l ih =>
      rw [List.foldl_cons, ih]
      have h2 : maxCount (q :: l) = max q.2 (maxCount l) := by
        rw [maxCount, List.foldl_cons, ih]
        simp
      rw [h2, max_assoc]

lemma maxCount_cons (p : String × ℕ) (l : List (String × ℕ)) :
    maxCount (p :: l) = max p.2 (maxCount l) := by
  rw [maxCount, List.foldl_cons, foldl_max_eq]
  simp

lemma maxCount_le_sumCounts (l : List (String × ℕ)) :
    maxCount l ≤ sumCounts l := by
  induction l with
  | nil => simp [maxCount, sumCounts]
  | cons p l ih =>
      rw [maxCount_cons, sumCounts, List.map_cons, List.sum_cons]
      exact max_le (Nat.le_add_right _ _) (le_trans ih (Nat.le_add_left _ _))

lemma sumCounts_bumpCount (l : List (String × ℕ)) (k : String) :
    sumCounts (bumpCount l k) = sumCounts l + 1 := by
  induction l with
  | nil => simp [bumpCount, sumCounts]
  | cons p l ih =>
      obtain ⟨k', c⟩ := p
      by_cases h : k' = k
      · simp [bumpCount, h, sumCounts]
        omega
      · simp only [bumpCount, if_neg h, sumCounts, List.map_cons, List.sum_cons] at *
        omega

lemma withFunder_events (f : Option String) (st : MintState) :
    (withFunder f st).events = st.events := by
  cases f <;> rfl

lemma withFunder_priceJumps (f : Option String) (st : MintState) :
    (withFunder f st).priceJumps = st.priceJumps := by
  cases f <;> rfl

lemma withFunder_lastPrice (f : Option String) (st : MintState) :
    (withFunder f st).lastPrice = st.lastPrice := by
  cases f <;> rfl

lemma withFunder_funderCounts (f : Option String) (st : MintState) :
    (withFunder f st).funderCounts =
      (match f with
        | some k => bumpCount st.funderCounts k
        | none => st.funderCounts) := by
  cases f <;> rfl

lemma withPriceJump_events (p : Option ℚ) (st : MintState) :
    (withPriceJump p st).events = st.events := by
  rcases p with _ | p
  · rfl
  · rcases h : st.lastPrice with _ | q
    · simp [withPriceJump, h]
    · simp only [withPriceJump, h]
      split <;> rfl

lemma withPriceJump_funderCounts (p : Option ℚ) (st : MintState) :
    (withPriceJump p st).funderCounts = st.funderCounts := by
  rcases p with _ | p
  · rfl
  · rcases h : st.lastPrice with _ | q
    · simp [withPriceJump, h]
    · simp only [withPriceJump, h]
      split <;> rfl

lemma withPriceJump_lastPrice (p : Option ℚ) (st : MintState) :
    (withPriceJump p st).lastPrice = st.lastPrice := by
  rcases p with _ | p
  · rfl
  · rcases h : st.lastPrice with _ | q
    · simp [withPriceJump, h]
    · simp only [withPriceJump, h]
      split <;> simp [h]

lemma withPriceJump_priceJumps (p : Option ℚ) (st : MintState) :
    (withPriceJump p st).priceJumps =
      (match p, st.lastPrice with
        | some q, some prev =>
            if 0 < prev ∧ 1/10 ≤ |q - prev| / prev
              then st.priceJumps + 1 else st.priceJumps
        | _, _ => st.priceJumps) := by
  rcases p with _ | q
  · rfl
  · rcases h : st.lastPrice with _ | prev
    · simp [withPriceJump, h]
    · simp only [withPriceJump, h]
      split <;> rfl

lemma withLastPrice_events (p : Option ℚ) (st : MintState) :
    (withLastPrice p st).events = st.events := by
  cases p <;> rfl

lemma withLastPrice_funderCounts (p : Option ℚ) (st : MintState) :
    (withLastPrice p st).funderCounts = st.funderCounts := by
  cases p <;> rfl

lemma withLastPrice_priceJumps (p : Option ℚ) (st : MintState) :
    (withLastPrice p st).priceJumps = st.priceJumps := by
  cases p <;> rfl

lemma pushEvent_funderCounts (ts : ℤ) (f : Option String) (p : Option ℚ)
    (st : MintState) : (pushEvent ts f p st).funderCounts = st.funderCounts := by
  rw [pushEvent]
  split <;> rfl

lemma pushEvent_priceJumps (ts : ℤ) (f : Option String) (p : Option ℚ)
    (st : MintState) : (pushEvent ts f p st).priceJumps = st.priceJumps := by
  rw [pushEvent]
  split <;> rfl

lemma pushEvent_events_length (ts : ℤ) (f : Option String) (p : Option ℚ)
    (st : MintState) :
    (pushEvent ts f p st).events.length =
      if 100 < st.events.length + 1 then st.events.length
      else st.events.length + 1 := by
  rw [pushEvent]
  simp only [List.length_append, List.length_singleton]
  split
  · next h =>
      simp only [List.length_tail, List.length_append, List.length_singleton]
      omega
  · next h =>
      simp

/-- `trackFirstN` changes the funder counts exactly by the single
`bumpCount` of the extracted funder. -/
lemma trackFirstN_funderCounts (st0 : Option MintState) (ts : ℤ)
    (funder : Option String) (price : Option ℚ) :
    (trackFirstN st0 ts funder price).funderCounts =
      (match funder with
        | some k => bumpCount (st0.getD (initState ts)).funderCounts k
        | none => (st0.getD (initState ts)).funderCounts) := by
  rw [trackFirstN, pushEvent_funderCounts, withLastPrice_funderCounts,
    withPriceJump_funderCounts, withFunder_funderCounts]

lemma trackFirstN_events_length (st0 : Option MintState) (ts : ℤ)
    (funder : Option String) (price : Option ℚ) :
    (trackFirstN st0 ts funder price).events.length =
      (if 100 < (st0.getD (initState ts)).events.length + 1
        then (st0.getD (initState ts)).events.length
        else (st0.getD (initState ts)).events.length + 1) := by
  rw [trackFirstN, pushEvent_events_length, withLastPrice_events,
    withPriceJump_events, withFunder_events]

lemma trackFirstN_inv (st0 : Option MintState) (n : ℕ) (ts : ℤ)
    (funder : Option String) (price : Option ℚ)
    (h : ∀ st, st0 = some st → TrackInv st n) (h0 : st0 = none → n = 0) :
    TrackInv (trackFirstN st0 ts funder price) (n + 1) := by
  have base : TrackInv (st0.getD (initState ts)) n := by
    cases hst : st0 with
    | none =>
        have hn := h0 hst
        subst hn
        simp [initState, TrackInv, sumCounts]
    | some st => simpa using h st hst
  obtain ⟨hlen, hsum⟩ := base
  constructor
  · rw [trackFirstN_events_length, hlen]
    split <;> omega
  · rw [trackFirstN_funderCounts]
    cases funder with
    | none => exact le_trans hsum (Nat.le_succ n)
    | some k =>
        simp only []
        rw [sumCounts_bumpCount]
        omega

/-- `trackFirstN` changes `priceJumps` exactly by the source's guarded
increment: only with both a current and a previous price, the previous one
strictly positive, and a relative change of at least 10%. -/
lemma trackFirstN_priceJumps (st0 : Option MintState) (ts : ℤ)
    (funder : Option String) (price : Option ℚ) :
    (trackFirstN st0 ts funder price).priceJumps =
      (match price, (st0.getD (initState ts)).lastPrice with
        | some p, some prev =>
            if 0 < prev ∧ 1/10 ≤ |p - prev| / prev
              then (st0.getD (initState ts)).priceJumps + 1
              else (st0.getD (initState ts)).priceJumps
        | _, _ => (st0.getD (initState ts)).priceJumps) := by
  rw [trackFirstN, pushEvent_priceJumps, withLastPrice_priceJumps,
    withPriceJump_priceJumps]
  simp only [withFunder_lastPrice, withFunder_priceJumps]

lemma runTrack_inv (l : List TrackIn) :
    (∀ st, runTrack l = some st → TrackInv st l.length) ∧
    (runTrack l = none → l.length = 0) := by
  rw [runTrack]
  induction l using List.reverseRecOn with
  | nil => simp
  | append_singleton l i ih =>
      rw [List.foldl_append, List.foldl_cons, List.foldl_nil]
      constructor
      · intro st hst
        simp only [Option.some.injEq] at hst
        subst hst
        simpa [List.length_append] using
          trackFirstN_inv _ l.length i.ts i.funder i.price ih.1 ih.2
      · intro hst
        simp at hst

/-! ### Ring-buffer index arithmetic and the advance loop -/

lemma tmod_lower (m : ℤ) (len : ℕ) (h : 0 < len) : -(len : ℤ) < m.tmod len := by
  cases m with
  | ofNat k =>
      have h0 : (0:ℤ) ≤ (Int.ofNat k).tmod len := Int.tmod_nonneg _ (Int.ofNat_nonneg k)
      have : (0:ℤ) < (len:ℤ) := by exact_mod_cast h
      omega
  | negSucc k =>
      have heq : (Int.negSucc k).tmod (len : ℤ) = -(((k + 1) % len : ℕ) : ℤ) := rfl
      have hlt : (k + 1) % len < len := Nat.mod_lt _ h
      rw [heq]
      omega

lemma jsIdx_eq_emod (m : ℤ) (len : ℕ) (h : 0 < len) :
    jsIdx m len = (m % (len : ℤ)).toNat := by
  have hl : (0:ℤ) < (len:ℤ) := by exact_mod_cast h
  have hup : m.tmod len < len := Int.tmod_lt_of_pos m hl
  have hlow := tmod_lower m len h
  have htn : (0:ℤ) ≤ m.tmod len + len := by omega
  have h1 : (m.tmod len + len).tmod len = (m.tmod len + len) % len :=
    Int.tmod_eq_emod htn (by omega)
  have h2 : (m.tmod len + len) % len = m.tmod len % len := by
    have h := Int.add_mul_emod_self_left (m.tmod len) (len : ℤ) 1
    simp only [mul_one] at h
    exact h
  have h3 : m.tmod len % len = m % len := by
    conv_rhs => rw [← Int.tmod_add_tdiv m len]
    rw [Int.add_mul_emod_self_left]
  rw [jsIdx, h1, h2, h3]

lemma jsIdx_lt (m : ℤ) (len : ℕ) (h : 0 < len) : jsIdx m len < len := by
  rw [jsIdx_eq_emod m len h]
  have hl : (0:ℤ) < (len:ℤ) := by exact_mod_cast h
  have h1 := Int.emod_lt_of_pos m hl
  have h2 := Int.emod_nonneg m (by omega : (len:ℤ) ≠ 0)
  omega

lemma jsIdx_inj {len : ℕ} (h : 0 < len) {a b : ℤ} (hab : a ≤ b) (hwin : b - len < a)
    (hidx : jsIdx a len = jsIdx b len) : a = b := by
  rw [jsIdx_eq_emod a len h, jsIdx_eq_emod b len h] at hidx
  have hl : (0:ℤ) < (len:ℤ) := by exact_mod_cast h
  have ha1 := Int.emod_nonneg a (by omega : (len:ℤ) ≠ 0)
  have hb1 := Int.emod_nonneg b (by omega : (len:ℤ) ≠ 0)
  have ha2 := Int.emod_lt_of_pos a hl
  have hb2 := Int.emod_lt_of_pos b hl
  have hmod : a % (len:ℤ) = b % (len:ℤ) := by omega
  rcases eq_or_lt_of_le hab with rfl | hlt
  · rfl
  · exfalso
    have hz : (b - a) % (len:ℤ) = 0 :=
      Int.emod_eq_emod_iff_emod_sub_eq_zero.mp hmod.symm
    have hd : (len:ℤ) ∣ b - a := Int.dvd_of_emod_eq_zero hz
    have := Int.le_of_dvd (by omega) hd
    omega

lemma tmod_toNat_eq_jsIdx (m : ℤ) (len : ℕ) (hm : 0 ≤ m) (h : 0 < len) :
    0 ≤ m.tmod len ∧ (m.tmod len).toNat = jsIdx m len := by
  have hl : (0:ℤ) ≤ (len:ℤ) := by positivity
  have heq : m.tmod len = m % len := Int.tmod_eq_emod hm hl
  refine ⟨by rw [heq]; exact Int.emod_nonneg m (by omega : (len:ℤ) ≠ 0), ?_⟩
  rw [heq, jsIdx_eq_emod m len h]

lemma getD_set_self {α : Type} (l : List α) (i : ℕ) (h : i < l.length) (v d : α) :
    (l.set i v).getD i d = v := by
  rw [List.getD_eq_getElem?_getD, List.getElem?_set_self (by simpa using h)]
  rfl

lemma getD_set_ne {α : Type} (l : List α) {i j : ℕ} (h : i ≠ j) (v d : α) :
    (l.set i v).getD j d = l.getD j d := by
  rw [List.getD_eq_getElem?_getD, List.getElem?_set_ne h, ← List.getD_eq_getElem?_getD]

lemma advanceLoop_length {α : Type} (zero : α) :
    ∀ (fuel : ℕ) (ring : List α) (last : ℤ),
      (advanceLoop zero ring last fuel).length = ring.length := by
  intro fuel
  induction fuel with
  | zero => intro ring last; rfl
  | succ n ih =>
      intro ring last
      rw [advanceLoop, ih]
      simp

lemma advanceLoop_ringInv {α : Type} (zero d : α) (content : ℤ → α) :
    ∀ (fuel : ℕ) (ring : List α) (M : ℤ), 0 < ring.length →
      RingInv d content ring M →
      (∀ μ : ℤ, M < μ → μ ≤ M + fuel → content μ = zero) →
      RingInv d content (advanceLoop zero ring M fuel) (M + fuel) := by
  intro fuel
  induction fuel with
  | zero =>
      intro ring M hlen hinv hnew
      simpa only [advanceLoop, Int.ofNat_zero, add_zero] using hinv
  | succ n ih =>
      intro ring M hlen hinv hnew
      rw [advanceLoop]
      have hstep : RingInv d content (ring.set (jsIdx (M + 1) ring.length) zero) (M + 1) := by
        intro μ hlo hhi
        rw [List.length_set] at hlo ⊢
        rcases eq_or_lt_of_le hhi with rfl | hlt
        · rw [getD_set_self _ _ (jsIdx_lt _ _ hlen) _ _]
          exact (hnew (M + 1) (by omega) (by omega)).symm
        · have hne : jsIdx (M + 1) ring.length ≠ jsIdx μ ring.length := by
            intro he
            have := jsIdx_inj hlen (by omega : μ ≤ M + 1) (by omega) he.symm
            omega
          rw [getD_set_ne _ hne _ _]
          exact hinv μ (by omega) (by omega)
      have hres := ih (ring.set (jsIdx (M + 1) ring.length) zero) (M + 1)
        (by simpa using hlen) hstep
        (by
          intro μ h1 h2
          exact hnew μ (by omega) (by push_cast at h2 ⊢; omega))
      have : M + 1 + (n : ℤ) = M + (n + 1 : ℕ) := by push_cast; omega
      rwa [this] at hres

lemma advanceTo_ringInv {α : Type} (zero d : α) (content : ℤ → α)
    (ring : List α) (M M' : ℤ) (hlen : 0 < ring.length) (hM : M ≤ M')
    (hinv : RingInv d content ring M)
    (hnew : ∀ μ : ℤ, M < μ → μ ≤ M' → content μ = zero) :
    (advanceTo zero ring M M').1.length = ring.length ∧
    (advanceTo zero ring M M').2 = M' ∧
    RingInv d content (advanceTo zero ring M M').1 M' := by
  rw [advanceTo]
  split
  · next hle =>
      have : M = M' := le_antisymm hM hle
      subst this
      exact ⟨rfl, rfl, hinv⟩
  · next hgt =>
      refine ⟨advanceLoop_length zero _ _ _, rfl, ?_⟩
      have hfe : M + ((M' - M).toNat : ℤ) = M' := by omega
      have := advanceLoop_ringInv zero d content (M' - M).toNat ring M hlen hinv
        (by intro μ h1 h2; exact hnew μ h1 (by omega))
      rwa [hfe] at this

/-! ### Relating ring states to the ghost record list -/

lemma countAt_append_new (recs : List (String × ℤ)) (mint : String) (m μ : ℤ) :
    countAt (recs ++ [(mint, m)]) μ =
      countAt recs μ + if μ = m then 1 else 0 := by
  rw [countAt, countAt, List.filter_append]
  simp only [List.length_append, List.filter_cons, List.filter_nil]
  by_cases h : m = μ <;> simp [h]
  · omega

lemma mintsAt_append_new (recs : List (String × ℤ)) (mint : String) (m μ : ℤ) :
    mintsAt (recs ++ [(mint, m)]) μ =
      if μ = m then insert mint (mintsAt recs μ) else mintsAt recs μ := by
  rw [mintsAt, mintsAt, List.filter_append]
  by_cases h : m = μ
  · subst h
    simp only [List.toFinset_append]
    simp [Finset.insert_eq, Finset.union_comm]
  · have : μ ≠ m := fun he => h he.symm
    simp [h, this]

lemma countAt_of_gt (recs : List (String × ℤ)) (M μ : ℤ)
    (hb : ∀ r ∈ recs, r.2 ≤ M) (hμ : M < μ) : countAt recs μ = 0 := by
  rw [countAt, List.length_eq_zero, List.filter_eq_nil_iff]
  intro r hr
  have := hb r hr
  simp only [decide_eq_true_eq]
  omega

lemma mintsAt_of_gt (recs : List (String × ℤ)) (M μ : ℤ)
    (hb : ∀ r ∈ recs, r.2 ≤ M) (hμ : M < μ) : mintsAt recs μ = ∅ := by
  rw [mintsAt]
  have : recs.filter (fun r => r.2 = μ) = [] := by
    rw [List.filter_eq_nil_iff]
    intro r hr
    have := hb r hr
    simp only [decide_eq_true_eq]
    omega
  rw [this]
  rfl

lemma MInv_init (cfg : HeatCfg) (m0 : ℤ) (h0 : 0 ≤ m0) :
    MInv cfg [] (MarketHeat.initState cfg m0) := by
  refine ⟨by simp [MarketHeat.initState], h0, by simp, ?_⟩
  intro μ h1 h2
  rw [MarketHeat.initState, countAt]
  simp only [List.filter_nil, List.length_nil]
  rw [List.getD_eq_getElem?_getD, List.getElem?_replicate]
  split <;> rfl

lemma UInv_init (cfg : HeatCfg) (m0 : ℤ) (h0 : 0 ≤ m0) :
    UInv cfg [] (MicroHeat.initState cfg m0) := by
  refine ⟨by simp [MicroHeat.initState], h0, by simp, ?_⟩
  intro μ h1 h2
  rw [MicroHeat.initState, mintsAt]
  simp only [List.filter_nil, List.map_nil, List.toFinset_nil]
  rw [List.getD_eq_getElem?_getD, List.getElem?_replicate]
  split <;> rfl

lemma MInv_record (cfg : HeatCfg) (recs : List (String × ℤ))
    (s : MarketHeat.State) (mint : String) (ts : ℤ)
    (hen : cfg.enabled = true)
    (hinv : MInv cfg recs s) (hmono : s.lastAbsMinute ≤ minuteOf ts) :
    MInv cfg (recs ++ [(mint, minuteOf ts)]) (MarketHeat.recordAccept cfg s ts) ∧
    (MarketHeat.recordAccept cfg s ts).lastAbsMinute = minuteOf ts := by
  obtain ⟨hlen, h0, hb, hring⟩ := hinv
  have hL : 0 < s.ring.length := by rw [hlen]; omega
  have hm0 : 0 ≤ minuteOf ts := le_trans h0 hmono
  have hadv := advanceTo_ringInv 0 0 (countAt recs) s.ring s.lastAbsMinute
    (minuteOf ts) hL hmono hring
    (fun μ h1 h2 => countAt_of_gt recs s.lastAbsMinute μ (fun r hr => (hb r hr).2) h1)
  obtain ⟨hadvlen, hadvlast, hadvinv⟩ := hadv
  rw [MarketHeat.recordAccept, hen]
  simp only [Bool.not_true, Bool.false_eq_true, if_false]
  set rl := advanceTo 0 s.ring s.lastAbsMinute (minuteOf ts) with hrl
  have hL1 : 0 < rl.1.length := by rw [hadvlen]; exact hL
  obtain ⟨hidx0, hidxeq⟩ := tmod_toNat_eq_jsIdx (minuteOf ts) rl.1.length hm0 hL1
  rw [if_pos hidx0]
  refine ⟨⟨?_, ?_, ?_, ?_⟩, ?_⟩
  · simpa [hadvlen] using hlen
  · simpa [hadvlast] using hm0
  · intro r hr
    rcases List.mem_append.mp hr with hr | hr
    · have := hb r hr
      simp only [hadvlast]
      exact ⟨this.1, le_trans this.2 hmono⟩
    · simp only [List.mem_singleton] at hr
      subst hr
      simp only [hadvlast]
      exact ⟨hm0, le_refl _⟩
  · intro μ h1 h2
    simp only [List.length_set, hadvlast] at h1 h2 ⊢
    rw [hidxeq]
    by_cases hμ : μ = minuteOf ts
    · subst hμ
      rw [getD_set_self _ _ (jsIdx_lt _ _ hL1) _ _]
      rw [countAt_append_new, if_pos rfl]
      have := hadvinv (minuteOf ts) (by omega) (le_refl _)
      omega
    · have hne : jsIdx (minuteOf ts) rl.1.length ≠ jsIdx μ rl.1.length := by
        intro he
        exact hμ (jsIdx_inj hL1 h2 (by omega) he.symm)
      rw [getD_set_ne _ hne _ _]
      rw [countAt_append_new, if_neg hμ]
      have := hadvinv μ (by omega) (by omega)
      omega
  · simp [hadvlast]

lemma UInv_record (cfg : HeatCfg) (recs : List (String × ℤ))
    (s : MicroHeat.State) (mint : String) (ts : ℤ)
    (hen : cfg.enabled = true)
    (hinv : UInv cfg recs s) (hmono : s.lastAbsMinute ≤ minuteOf ts) :
    UInv cfg (recs ++ [(mint, minuteOf ts)]) (MicroHeat.recordAccept cfg s mint ts) ∧
    (MicroHeat.recordAccept cfg s mint ts).lastAbsMinute = minuteOf ts := by
  obtain ⟨hlen, h0, hb, hring⟩ := hinv
  have hL : 0 < s.ring.length := by rw [hlen]; omega
  have hm0 : 0 ≤ minuteOf ts := le_trans h0 hmono
  have hadv := advanceTo_ringInv ∅ ∅ (mintsAt recs) s.ring s.lastAbsMinute
    (minuteOf ts) hL hmono hring
    (fun μ h1 h2 => mintsAt_of_gt recs s.lastAbsMinute μ (fun r hr => (hb r hr).2) h1)
  obtain ⟨hadvlen, hadvlast, hadvinv⟩ := hadv
  rw [MicroHeat.recordAccept, hen]
  simp only [Bool.not_true, Bool.false_eq_true, if_false]
  set rl := advanceTo ∅ s.ring s.lastAbsMinute (minuteOf ts) with hrl
  have hL1 : 0 < rl.1.length := by rw [hadvlen]; exact hL
  obtain ⟨hidx0, hidxeq⟩ := tmod_toNat_eq_jsIdx (minuteOf ts) rl.1.length hm0 hL1
  rw [if_pos hidx0]
  refine ⟨⟨?_, ?_, ?_, ?_⟩, ?_⟩
  · simpa [hadvlen] using hlen
  · simpa [hadvlast] using hm0
  · intro r hr
    rcases List.mem_append.mp hr with hr | hr
    · have := hb r hr
      simp only [hadvlast]
      exact ⟨this.1, le_trans this.2 hmono⟩
    · simp only [List.mem_singleton] at hr
      subst hr
      simp only [hadvlast]
      exact ⟨hm0, le_refl _⟩
  · intro μ h1 h2
    simp only [List.length_set, hadvlast] at h1 h2 ⊢
    rw [hidxeq]
    by_cases hμ : μ = minuteOf ts
    · subst hμ
      rw [getD_set_self _ _ (jsIdx_lt _ _ hL1) _ _]
      rw [mintsAt_append_new, if_pos rfl]
      have := hadvinv (minuteOf ts) (by omega) (le_refl _)
      rw [this]
    · have hne : jsIdx (minuteOf ts) rl.1.length ≠ jsIdx μ rl.1.length := by
        intro he
        exact hμ (jsIdx_inj hL1 h2 (by omega) he.symm)
      rw [getD_set_ne _ hne _ _]
      rw [mintsAt_append_new, if_neg hμ]
      exact hadvinv μ (by omega) (by omega)
  · simp [hadvlast]

lemma MInv_query (cfg : HeatCfg) (recs : List (String × ℤ))
    (s : MarketHeat.State) (ts : ℤ) (hen : cfg.enabled = true)
    (hinv : MInv cfg recs s) (hmono : s.lastAbsMinute ≤ minuteOf ts) :
    MInv cfg recs (MarketHeat.getAcceptsPerHour cfg s ts).2 ∧
    (MarketHeat.getAcceptsPerHour cfg s ts).2.lastAbsMinute = minuteOf ts := by
  obtain ⟨hlen, h0, hb, hring⟩ := hinv
  have hL : 0 < s.ring.length := by rw [hlen]; omega
  have hm0 : 0 ≤ minuteOf ts := le_trans h0 hmono
  have hadv := advanceTo_ringInv 0 0 (countAt recs) s.ring s.lastAbsMinute
    (minuteOf ts) hL hmono hring
    (fun μ h1 h2 => countAt_of_gt recs s.lastAbsMinute μ (fun r hr => (hb r hr).2) h1)
  obtain ⟨hadvlen, hadvlast, hadvinv⟩ := hadv
  rw [MarketHeat.getAcceptsPerHour, hen]
  simp only [Bool.not_true, Bool.false_eq_true, if_false]
  refine ⟨⟨?_, ?_, ?_, ?_⟩, ?_⟩
  · simpa [hadvlen] using hlen
  · simpa [hadvlast] using hm0
  · intro r hr
    have := hb r hr
    simp only [hadvlast]
    exact ⟨this.1, le_trans this.2 hmono⟩
  · simpa [hadvlast] using hadvinv
  · simp [hadvlast]

lemma UInv_query (cfg : HeatCfg) (recs : List (String × ℤ))
    (s : MicroHeat.State) (ts : ℤ) (hen : cfg.enabled = true)
    (hinv : UInv cfg recs s) (hmono : s.lastAbsMinute ≤ minuteOf ts) :
    UInv cfg recs (MicroHeat.getAcceptsPerHour cfg s ts).2 ∧
    (MicroHeat.getAcceptsPerHour cfg s ts).2.lastAbsMinute = minuteOf ts := by
  obtain ⟨hlen, h0, hb, hring⟩ := hinv
  have hL : 0 < s.ring.length := by rw [hlen]; omega
  have hm0 : 0 ≤ minuteOf ts := le_trans h0 hmono
  have hadv := advanceTo_ringInv ∅ ∅ (mintsAt recs) s.ring s.lastAbsMinute
    (minuteOf ts) hL hmono hring
    (fun μ h1 h2 => mintsAt_of_gt recs s.lastAbsMinute μ (fun r hr => (hb r hr).2) h1)
  obtain ⟨hadvlen, hadvlast, hadvinv⟩ := hadv
  rw [MicroHeat.getAcceptsPerHour, hen]
  simp only [Bool.not_true, Bool.false_eq_true, if_false]
  refine ⟨⟨?_, ?_, ?_, ?_⟩, ?_⟩
  · simpa [hadvlen] using hlen
  · simpa [hadvlast] using hm0
  · intro r hr
    have := hb r hr
    simp only [hadvlast]
    exact ⟨this.1, le_trans this.2 hmono⟩
  · simpa [hadvlast] using hadvinv
  · simp [hadvlast]

lemma list_sum_getD (l : List ℕ) :
    l.sum = ∑ j ∈ Finset.range l.length, l.getD j 0 := by
  induction l with
  | nil => simp
  | cons a l ih =>
      rw [List.sum_cons, List.length_cons, Finset.sum_range_succ']
      simp only [List.getD_cons_succ, List.getD_cons_zero]
      rw [ih]
      omega

lemma emod_sub_emod (a b n : ℤ) : (a - b % n) % n = (a - b) % n := by
  conv_rhs => rw [Int.sub_emod]
  rw [Int.sub_emod a (b % n) n, Int.emod_emod_of_dvd b dvd_rfl]

lemma jsIdx_left_inv (L : ℕ) (hL : 0 < L) (m : ℤ) (j : ℕ) (hj : j < L) :
    jsIdx (m - ((m - (j : ℤ)) % L)) L = j := by
  have hLz : (0:ℤ) < (L:ℤ) := by exact_mod_cast hL
  rw [jsIdx_eq_emod _ _ hL, emod_sub_emod]
  have h1 : m - (m - (j:ℤ)) = (j:ℤ) := by omega
  rw [h1, Int.emod_eq_of_lt (by positivity) (by exact_mod_cast hj)]
  simp

lemma sum_range_eq_sum_Ioc (L : ℕ) (hL : 0 < L) (m : ℤ) (f : ℕ → ℕ) :
    ∑ j ∈ Finset.range L, f j = ∑ μ ∈ Finset.Ioc (m - L) m, f (jsIdx μ L) := by
  have hLz : (0:ℤ) < (L:ℤ) := by exact_mod_cast hL
  have hLne : (L:ℤ) ≠ 0 := by omega
  refine Finset.sum_nbij' (fun j => m - ((m - (j : ℤ)) % L)) (fun μ => jsIdx μ L)
    ?_ ?_ ?_ ?_ ?_
  · intro j hj
    have h1 := Int.emod_nonneg (m - (j:ℤ)) hLne
    have h2 := Int.emod_lt_of_pos (m - (j:ℤ)) hLz
    simp only [Finset.mem_Ioc]
    omega
  · intro μ hμ
    simp only [Finset.mem_range]
    exact jsIdx_lt μ L hL
  · intro j hj
    simp only [Finset.mem_range] at hj
    simp only []
    exact jsIdx_left_inv L hL m j hj
  · intro μ hμ
    simp only [Finset.mem_Ioc] at hμ
    simp only []
    rw [jsIdx_eq_emod _ _ hL]
    have h1 := Int.emod_nonneg μ hLne
    rw [Int.toNat_of_nonneg h1, emod_sub_emod]
    have h2 : (m - μ) % (L:ℤ) = m - μ := Int.emod_eq_of_lt (by omega) (by omega)
    omega
  · intro j hj
    simp only [Finset.mem_range] at hj
    simp only []
    rw [jsIdx_left_inv L hL m j hj]

lemma sum_countAt_Ioc (recs : List (String × ℤ)) (a b : ℤ) :
    ∑ μ ∈ Finset.Ioc a b, countAt recs μ =
      (recs.filter (fun r => decide (a < r.2) && decide (r.2 ≤ b))).length := by
  induction recs with
  | nil => simp [countAt]
  | cons r recs ih =>
      have hc : ∀ μ : ℤ, countAt (r :: recs) μ =
          (if r.2 = μ then 1 else 0) + countAt recs μ := by
        intro μ
        rw [countAt, countAt, List.filter_cons]
        by_cases h : r.2 = μ
        · rw [if_pos (by simpa using h), if_pos h, List.length_cons]
          omega
        · rw [if_neg (by simpa using h), if_neg h]
          omega
      have hsum : ∑ μ ∈ Finset.Ioc a b, countAt (r :: recs) μ =
          (∑ μ ∈ Finset.Ioc a b, if r.2 = μ then 1 else 0) +
            ∑ μ ∈ Finset.Ioc a b, countAt recs μ := by
        rw [← Finset.sum_add_distrib]
        exact Finset.sum_congr rfl fun μ _ => hc μ
      rw [hsum, Finset.sum_ite_eq, ih, List.filter_cons]
      by_cases hmem : a < r.2 ∧ r.2 ≤ b
      · rw [if_pos (Finset.mem_Ioc.mpr hmem),
          if_pos (by simp [hmem.1, hmem.2]), List.length_cons]
        omega
      · rw [if_neg (by rw [Finset.mem_Ioc]; exact hmem),
          if_neg (by simpa using hmem)]
        omega

lemma filter_length_eq_toFinset_card (recs : List (String × ℤ))
    (p : String × ℤ → Bool) (hnodup : (recs.map Prod.fst).Nodup) :
    (recs.filter p).length = ((recs.filter p).map Prod.fst).toFinset.card := by
  have h1 : ((recs.filter p).map Prod.fst).Nodup :=
    hnodup.sublist (List.Sublist.map _ (List.filter_sublist _))
  rw [List.toFinset_card_of_nodup h1, List.length_map]

lemma mem_mintsAt {x : String} {recs : List (String × ℤ)} {μ : ℤ} :
    x ∈ mintsAt recs μ ↔ ∃ r ∈ recs, r.2 = μ ∧ r.1 = x := by
  rw [mintsAt, List.mem_toFinset, List.mem_map]
  constructor
  · rintro ⟨r, hr, hx⟩
    rw [List.mem_filter] at hr
    exact ⟨r, hr.1, by simpa using hr.2, hx⟩
  · rintro ⟨r, hr, hμ, hx⟩
    exact ⟨r, List.mem_filter.mpr ⟨hr, by simpa using hμ⟩, hx⟩

lemma mem_mintsInWindow {x : String} {recs : List (String × ℤ)} {m : ℤ} {w : ℕ} :
    x ∈ mintsInWindow recs m w ↔
      ∃ r ∈ recs, (m - w < r.2 ∧ r.2 ≤ m) ∧ r.1 = x := by
  rw [mintsInWindow, List.mem_toFinset, List.mem_map]
  constructor
  · rintro ⟨r, hr, hx⟩
    rw [List.mem_filter] at hr
    refine ⟨r, hr.1, ?_, hx⟩
    have := hr.2
    simp only [Bool.and_eq_true, decide_eq_true_eq] at this
    exact this
  · rintro ⟨r, hr, hw, hx⟩
    refine ⟨r, List.mem_filter.mpr ⟨hr, ?_⟩, hx⟩
    simp only [Bool.and_eq_true, decide_eq_true_eq]
    exact hw

/-- The value returned by the count variant at a query, under the
invariant and nodup records: the number of distinct mints recorded in the
last `windowMin` minutes, scaled by `60/windowMin`. -/
lemma market_query_value (cfg : HeatCfg) (recs : List (String × ℤ))
    (s : MarketHeat.State) (ts : ℤ) (hen : cfg.enabled = true)
    (hinv : MInv cfg recs s) (hmono : s.lastAbsMinute ≤ minuteOf ts)
    (hnodup : (recs.map Prod.fst).Nodup) :
    (MarketHeat.getAcceptsPerHour cfg s ts).1 =
      ((mintsInWindow recs (minuteOf ts) (max 1 cfg.windowMin)).card : ℚ)
        * (60 / max 1 (cfg.windowMin : ℚ)) := by
  obtain ⟨hlen, h0, hb, hring⟩ := hinv
  have hL : 0 < s.ring.length := by rw [hlen]; omega
  have hadv := advanceTo_ringInv 0 0 (countAt recs) s.ring s.lastAbsMinute
    (minuteOf ts) hL hmono hring
    (fun μ h1 h2 => countAt_of_gt recs s.lastAbsMinute μ (fun r hr => (hb r hr).2) h1)
  obtain ⟨hadvlen, hadvlast, hadvinv⟩ := hadv
  rw [MarketHeat.getAcceptsPerHour, hen]
  simp only [Bool.not_true, Bool.false_eq_true, if_false]
  have hsum : (advanceTo 0 s.ring s.lastAbsMinute (minuteOf ts)).1.sum =
      (mintsInWindow recs (minuteOf ts) (max 1 cfg.windowMin)).card := by
    set ring1 := (advanceTo 0 s.ring s.lastAbsMinute (minuteOf ts)).1
    have hL1 : ring1.length = max 1 cfg.windowMin := by rw [hadvlen, hlen]
    have hL1pos : 0 < ring1.length := by rw [hL1]; omega
    rw [list_sum_getD, sum_range_eq_sum_Ioc ring1.length hL1pos (minuteOf ts)]
    have hvals : ∀ μ ∈ Finset.Ioc (minuteOf ts - ring1.length) (minuteOf ts),
        ring1.getD (jsIdx μ ring1.length) 0 = countAt recs μ := by
      intro μ hμ
      rw [Finset.mem_Ioc] at hμ
      exact hadvinv μ (by omega) hμ.2
    rw [Finset.sum_congr rfl hvals, sum_countAt_Ioc]
    rw [mintsInWindow, ← filter_length_eq_toFinset_card recs _ hnodup, hL1]
  rw [hsum]

/-- The value returned by the distinct-mint variant at a query, under the
invariant: the same distinct-mints-in-window count, scaled identically. -/
lemma micro_query_value (cfg : HeatCfg) (recs : List (String × ℤ))
    (s : MicroHeat.State) (ts : ℤ) (hen : cfg.enabled = true)
    (hinv : UInv cfg recs s) (hmono : s.lastAbsMinute ≤ minuteOf ts) :
    (MicroHeat.getAcceptsPerHour cfg s ts).1 =
      ((mintsInWindow recs (minuteOf ts) (max 1 cfg.windowMin)).card : ℚ)
        * (60 / max 1 (cfg.windowMin : ℚ)) := by
  obtain ⟨hlen, h0, hb, hring⟩ := hinv
  have hL : 0 < s.ring.length := by rw [hlen]; omega
  have hadv := advanceTo_ringInv ∅ ∅ (mintsAt recs) s.ring s.lastAbsMinute
    (minuteOf ts) hL hmono hring
    (fun μ h1 h2 => mintsAt_of_gt recs s.lastAbsMinute μ (fun r hr => (hb r hr).2) h1)
  obtain ⟨hadvlen, hadvlast, hadvinv⟩ := hadv
  rw [MicroHeat.getAcceptsPerHour, hen]
  simp only [Bool.not_true, Bool.false_eq_true, if_false]
  set ring1 := (advanceTo ∅ s.ring s.lastAbsMinute (minuteOf ts)).1 with hring1
  have hL1 : ring1.length = max 60 cfg.windowMin := by rw [hadvlen, hlen]
  have hWle : max 1 cfg.windowMin ≤ ring1.length := by rw [hL1]; omega
  have hmin : min (max 1 cfg.windowMin) ring1.length = max 1 cfg.windowMin :=
    min_eq_left hWle
  have hseen : (Finset.range (min (max 1 cfg.windowMin) ring1.length)).biUnion
      (fun i => ring1.getD (jsIdx ((minuteOf ts) - i) ring1.length) ∅) =
      mintsInWindow recs (minuteOf ts) (max 1 cfg.windowMin) := by
    ext x
    rw [Finset.mem_biUnion, mem_mintsInWindow]
    constructor
    · rintro ⟨i, hi, hx⟩
      rw [Finset.mem_range, hmin] at hi
      have hbucket : ring1.getD (jsIdx ((minuteOf ts) - i) ring1.length) ∅ =
          mintsAt recs ((minuteOf ts) - i) := by
        apply hadvinv
        · rw [hL1]
          push_cast
          omega
        · omega
      rw [hbucket, mem_mintsAt] at hx
      obtain ⟨r, hr, hμ, hx⟩ := hx
      refine ⟨r, hr, ⟨?_, ?_⟩, hx⟩
      · rw [hμ]
        push_cast
        omega
      · rw [hμ]
        omega
    · rintro ⟨r, hr, ⟨hw1, hw2⟩, hx⟩
      refine ⟨((minuteOf ts) - r.2).toNat, ?_, ?_⟩
      · rw [Finset.mem_range, hmin]
        omega
      · have hμeq : (minuteOf ts) - (((minuteOf ts) - r.2).toNat : ℤ) = r.2 := by
          omega
        rw [hμeq]
        have hbucket : ring1.getD (jsIdx r.2 ring1.length) ∅ = mintsAt recs r.2 := by
          apply hadvinv
          · rw [hL1]
            push_cast
            omega
          · omega
        rw [hbucket, mem_mintsAt]
        exact ⟨r, hr, rfl, hx⟩
  rw [hseen]

/-- Main simulation: with monotone wall-clock minutes and globally distinct
mints, both `acceptsPerHour` variants report the specification's
distinct-mints-in-window value at every query of the trace. -/
lemma runs_agree (cfg : HeatCfg) (hen : cfg.enabled = true) :
    ∀ (ops : List HeatOp) (recs : List (String × ℤ))
      (sM : MarketHeat.State) (sU : MicroHeat.State),
      MInv cfg recs sM → UInv cfg recs sU →
      sM.lastAbsMinute = sU.lastAbsMinute →
      MinutesMono sM.lastAbsMinute ops →
      ((recs ++ recordsOf ops).map Prod.fst).Nodup →
      MarketHeat.runOuts cfg sM ops = specOuts cfg recs ops ∧
      MicroHeat.runOuts cfg sU ops = specOuts cfg recs ops := by
  intro ops
  induction ops with
  | nil => exact fun recs sM sU _ _ _ _ _ => ⟨rfl, rfl⟩
  | cons op rest ih =>
      intro recs sM sU hM hU hlast hmono hnodup
      cases op with
      | record mint ts =>
          obtain ⟨hm1, hm2⟩ := hmono
          simp only [HeatOp.minute] at hm1 hm2
          have hMrec := MInv_record cfg recs sM mint ts hen hM hm1
          have hUrec := UInv_record cfg recs sU mint ts hen hU (hlast ▸ hm1)
          have hnodup' : (((recs ++ [(mint, minuteOf ts)]) ++ recordsOf rest).map
              Prod.fst).Nodup := by
            rw [List.append_assoc]
            simpa [recordsOf] using hnodup
          have hrest := ih (recs ++ [(mint, minuteOf ts)])
            (MarketHeat.recordAccept cfg sM ts)
            (MicroHeat.recordAccept cfg sU mint ts)
            hMrec.1 hUrec.1 (by rw [hMrec.2, hUrec.2])
            (by rw [hMrec.2]; exact hm2) hnodup'
          simpa [MarketHeat.runOuts, MicroHeat.runOuts, specOuts] using hrest
      | query ts =>
          obtain ⟨hm1, hm2⟩ := hmono
          simp only [HeatOp.minute] at hm1 hm2
          have hnodupRecs : (recs.map Prod.fst).Nodup := by
            rw [List.map_append] at hnodup
            exact hnodup.of_append_left
          have hheadM := market_query_value cfg recs sM ts hen hM hm1 hnodupRecs
          have hheadU := micro_query_value cfg recs sU ts hen hU (hlast ▸ hm1)
          have hMq := MInv_query cfg recs sM ts hen hM hm1
          have hUq := UInv_query cfg recs sU ts hen hU (hlast ▸ hm1)
          have hrest := ih recs (MarketHeat.getAcceptsPerHour cfg sM ts).2
            (MicroHeat.getAcceptsPerHour cfg sU ts).2
            hMq.1 hUq.1 (by rw [hMq.2, hUq.2])
            (by rw [hMq.2]; exact hm2)
            (by simpa [recordsOf] using hnodup)
          refine ⟨?_, ?_⟩
          · simp only [MarketHeat.runOuts, specOuts]
            rw [hheadM, hrest.1]
          · simp only [MicroHeat.runOuts, specOuts]
            rw [hheadU, hrest.2]

lemma MarketHeat.getAcceptsPerHour_val (cfg : HeatCfg) (s : MarketHeat.State)
    (ts : ℤ) (hen : cfg.enabled = true) :
    (MarketHeat.getAcceptsPerHour cfg s ts).1 =
      (((advanceTo 0 s.ring s.lastAbsMinute (minuteOf ts)).1.sum : ℚ))
        * (60 / max 1 (cfg.windowMin : ℚ)) := by
  rw [MarketHeat.getAcceptsPerHour, hen]
  rfl

lemma MicroHeat.getAcceptsPerHourDistinct_val (cfg : HeatCfg) (s : MicroHeat.State)
    (ts : ℤ) (hen : cfg.enabled = true) :
    (MicroHeat.getAcceptsPerHour cfg s ts).1 =
      ((((Finset.range (min (max 1 cfg.windowMin)
            (advanceTo ∅ s.ring s.lastAbsMinute (minuteOf ts)).1.length)).biUnion
          (fun i => (advanceTo ∅ s.ring s.lastAbsMinute (minuteOf ts)).1.getD
            (jsIdx (minuteOf ts - i)
              (advanceTo ∅ s.ring s.lastAbsMinute (minuteOf ts)).1.length) ∅)).card : ℚ))
        * (60 / max 1 (cfg.windowMin : ℚ)) := by
  rw [MicroHeat.getAcceptsPerHour, hen]
  rfl

lemma MarketHeat.getHeat_val (cfg : HeatCfg) (s : MarketHeat.State) (ts : ℤ)
    (hen : cfg.enabled = true) :
    (MarketHeat.getHeat cfg s ts).1 =
      { band := bandOf cfg (MarketHeat.getAcceptsPerHour cfg s ts).1,
        acceptsPerHr := (MarketHeat.getAcceptsPerHour cfg s ts).1,
        scoreDelta := (deltasOf cfg (bandOf cfg (MarketHeat.getAcceptsPerHour cfg s ts).1)).1,
        buyersDelta := (deltasOf cfg (bandOf cfg (MarketHeat.getAcceptsPerHour cfg s ts).1)).2 } := by
  rw [MarketHeat.getHeat, hen]
  rfl

/-! ### Entry-engine step lemmas -/


lemma lookup_cons (m k : String) (v : MintDecisionState)
    (rest : List (String × MintDecisionState)) :
    List.lookup m ((k, v) :: rest) =
      if m = k then some v else List.lookup m rest := by
  rw [List.lookup]
  by_cases h : m = k
  · rw [if_pos h]
    have : (m == k) = true := by simpa using h
    rw [this]
  · rw [if_neg h]
    have : (m == k) = false := by simpa using h
    rw [this]

lemma setState_lookup_self (l : List (String × MintDecisionState)) (mint : String)
    (st : MintDecisionState) (h : l.lookup mint = some st) :
    setState l mint st = l := by
  induction l with
  | nil => simp [List.lookup] at h
  | cons p rest ih =>
      obtain ⟨k, v⟩ := p
      rw [setState]
      rw [lookup_cons] at h
      by_cases hk : k = mint
      · subst hk
        rw [if_pos rfl]
        rw [if_pos rfl] at h
        simp only [Option.some.injEq] at h
        rw [h]
      · rw [if_neg hk]
        rw [if_neg (fun he => hk he.symm)] at h
        rw [ih h]

lemma lookup_setState_self (l : List (String × MintDecisionState)) (mint : String)
    (st : MintDecisionState) : (setState l mint st).lookup mint = some st := by
  induction l with
  | nil => simp [setState, lookup_cons]
  | cons p rest ih =>
      obtain ⟨k, v⟩ := p
      rw [setState]
      by_cases hk : k = mint
      · subst hk
        rw [if_pos rfl, lookup_cons, if_pos rfl]
      · rw [if_neg hk, lookup_cons, if_neg (fun he => hk he.symm)]
        exact ih

lemma lookup_setState_ne (l : List (String × MintDecisionState)) (mint m : String)
    (st : MintDecisionState) (h : mint ≠ m) :
    (setState l mint st).lookup m = l.lookup m := by
  induction l with
  | nil =>
      rw [setState, lookup_cons, if_neg (fun he => h he.symm)]
  | cons p rest ih =>
      obtain ⟨k, v⟩ := p
      rw [setState]
      by_cases hk : k = mint
      · subst hk
        rw [if_pos rfl, lookup_cons, lookup_cons,
          if_neg (fun he => h he.symm), if_neg (fun he => h he.symm)]
      · rw [if_neg hk, lookup_cons, lookup_cons]
        by_cases hkm : m = k
        · rw [if_pos hkm, if_pos hkm]
        · rw [if_neg hkm, if_neg hkm]
          exact ih

lemma core_sticky (cfg : Config) (s : EngineState) (inp : EvalInput)
    (g f : Bool) (sc : ℤ) (h1 : (stOf s inp).stickyFatal = true) :
    evaluateMintCore cfg s inp g f sc =
      { s with states := setState s.states inp.mint (stOf s inp) } := by
  simp only [evaluateMintCore]
  rw [if_pos h1]

lemma core_cooldown (cfg : Config) (s : EngineState) (inp : EvalInput)
    (g f : Bool) (sc : ℤ) (h1 : (stOf s inp).stickyFatal = false)
    (h2 : cooldownBlocked cfg (stOf s inp) inp.nowTs) :
    evaluateMintCore cfg s inp g f sc =
      { s with states := setState s.states inp.mint (stOf s inp) } := by
  have h1' : ¬(stOf s inp).stickyFatal = true := by simp [h1]
  simp only [evaluateMintCore]
  rw [if_neg h1', if_pos h2]

lemma core_ttl (cfg : Config) (s : EngineState) (inp : EvalInput)
    (g f : Bool) (sc : ℤ) (h1 : (stOf s inp).stickyFatal = false)
    (h2 : ¬cooldownBlocked cfg (stOf s inp) inp.nowTs)
    (h3 : ttlFires cfg (bumpEval (stOf s inp) inp.nowTs) inp.nowTs) :
    evaluateMintCore cfg s inp g f sc =
      { s with
        states := setState s.states inp.mint
          { bumpEval (stOf s inp) inp.nowTs with
            lastDecision := .rejectedSoft, ttlExpired := true },
        softRejectEvents := s.softRejectEvents ++ [inp.nowTs] } := by
  have h1' : ¬(stOf s inp).stickyFatal = true := by simp [h1]
  simp only [evaluateMintCore]
  rw [if_neg h1', if_neg h2, if_pos h3]

lemma core_obsGate (cfg : Config) (s : EngineState) (inp : EvalInput)
    (g f : Bool) (sc : ℤ) (h1 : (stOf s inp).stickyFatal = false)
    (h2 : ¬cooldownBlocked cfg (stOf s inp) inp.nowTs)
    (h3 : ¬ttlFires cfg (bumpEval (stOf s inp) inp.nowTs) inp.nowTs)
    (h4 : obsGateFails inp) :
    evaluateMintCore cfg s inp g f sc =
      { s with
        states := setState s.states inp.mint
          { bumpEval (stOf s inp) inp.nowTs with lastDecision := .hold } } := by
  have h1' : ¬(stOf s inp).stickyFatal = true := by simp [h1]
  simp only [evaluateMintCore]
  rw [if_neg h1', if_neg h2, if_neg h3, if_pos h4]

lemma core_fatal (cfg : Config) (s : EngineState) (inp : EvalInput)
    (g : Bool) (sc : ℤ) (h1 : (stOf s inp).stickyFatal = false)
    (h2 : ¬cooldownBlocked cfg (stOf s inp) inp.nowTs)
    (h3 : ¬ttlFires cfg (bumpEval (stOf s inp) inp.nowTs) inp.nowTs)
    (h4 : ¬obsGateFails inp) :
    evaluateMintCore cfg s inp g true sc =
      { s with
        states := setState s.states inp.mint
          { bumpEval (stOf s inp) inp.nowTs with
            lastDecision := .rejectedFatal, stickyFatal := true },
        fatalRejectEvents := s.fatalRejectEvents ++ [inp.nowTs],
        orders := insertOrIgnore s.orders (fatalRow inp),
        alertCalls := s.alertCalls ++ [(inp.mint, "rejected_fatal", inp.nowTs)] } := by
  have h1' : ¬(stOf s inp).stickyFatal = true := by simp [h1]
  simp only [evaluateMintCore]
  rw [if_neg h1', if_neg h2, if_neg h3, if_neg h4, if_pos trivial]

lemma core_soft (cfg : Config) (s : EngineState) (inp : EvalInput)
    (sc : ℤ) (h1 : (stOf s inp).stickyFatal = false)
    (h2 : ¬cooldownBlocked cfg (stOf s inp) inp.nowTs)
    (h3 : ¬ttlFires cfg (bumpEval (stOf s inp) inp.nowTs) inp.nowTs)
    (h4 : ¬obsGateFails inp) :
    evaluateMintCore cfg s inp false false sc =
      { s with
        states := setState s.states inp.mint
          { bumpEval (stOf s inp) inp.nowTs with lastDecision := .rejectedSoft },
        softRejectEvents := s.softRejectEvents ++ [inp.nowTs] } := by
  have h1' : ¬(stOf s inp).stickyFatal = true := by simp [h1]
  simp only [evaluateMintCore]
  rw [if_neg h1', if_neg h2, if_neg h3, if_neg h4]
  have hf5 : ¬(false = true) := by decide
  have hg6 : (!false) = true := by decide
  rw [if_neg hf5, if_pos hg6]

lemma core_tier_reject (cfg : Config) (s : EngineState) (inp : EvalInput)
    (sc : ℤ) (h1 : (stOf s inp).stickyFatal = false)
    (h2 : ¬cooldownBlocked cfg (stOf s inp) inp.nowTs)
    (h3 : ¬ttlFires cfg (bumpEval (stOf s inp) inp.nowTs) inp.nowTs)
    (h4 : ¬obsGateFails inp) (h7 : tierOf inp.eff sc = "REJECT") :
    evaluateMintCore cfg s inp true false sc =
      { s with
        states := setState s.states inp.mint
          { bumpScore (bumpEval (stOf s inp) inp.nowTs) sc with
            lastDecision := .hold } } := by
  have h1' : ¬(stOf s inp).stickyFatal = true := by simp [h1]
  simp only [evaluateMintCore]
  rw [if_neg h1', if_neg h2, if_neg h3, if_neg h4]
  have hf5 : ¬(false = true) := by decide
  have hg6 : ¬((!true) = true) := by decide
  rw [if_neg hf5, if_neg hg6, if_pos h7]

lemma core_upgrade_cooldown (cfg : Config) (s : EngineState) (inp : EvalInput)
    (sc : ℤ) (h1 : (stOf s inp).stickyFatal = false)
    (h2 : ¬cooldownBlocked cfg (stOf s inp) inp.nowTs)
    (h3 : ¬ttlFires cfg (bumpEval (stOf s inp) inp.nowTs) inp.nowTs)
    (h4 : ¬obsGateFails inp) (h7 : ¬tierOf inp.eff sc = "REJECT")
    (h8 : upgradeCooldownHit cfg (bumpScore (bumpEval (stOf s inp) inp.nowTs) sc)
      inp.nowTs (tierOf inp.eff sc)) :
    evaluateMintCore cfg s inp true false sc =
      { s with
        states := setState s.states inp.mint
          (bumpScore (bumpEval (stOf s inp) inp.nowTs) sc) } := by
  have h1' : ¬(stOf s inp).stickyFatal = true := by simp [h1]
  simp only [evaluateMintCore]
  rw [if_neg h1', if_neg h2, if_neg h3, if_neg h4]
  have hf5 : ¬(false = true) := by decide
  have hg6 : ¬((!true) = true) := by decide
  rw [if_neg hf5, if_neg hg6, if_neg h7, if_pos h8]

lemma core_already_accepted (cfg : Config) (s : EngineState) (inp : EvalInput)
    (sc : ℤ) (h1 : (stOf s inp).stickyFatal = false)
    (h2 : ¬cooldownBlocked cfg (stOf s inp) inp.nowTs)
    (h3 : ¬ttlFires cfg (bumpEval (stOf s inp) inp.nowTs) inp.nowTs)
    (h4 : ¬obsGateFails inp) (h7 : ¬tierOf inp.eff sc = "REJECT")
    (h8 : ¬upgradeCooldownHit cfg (bumpScore (bumpEval (stOf s inp) inp.nowTs) sc)
      inp.nowTs (tierOf inp.eff sc))
    (h9 : alreadyAcceptedNoUpgrade (bumpScore (bumpEval (stOf s inp) inp.nowTs) sc)
      (tierOf inp.eff sc)) :
    evaluateMintCore cfg s inp true false sc =
      { s with
        states := setState s.states inp.mint
          (bumpScore (bumpEval (stOf s inp) inp.nowTs) sc) } := by
  have h1' : ¬(stOf s inp).stickyFatal = true := by simp [h1]
  simp only [evaluateMintCore]
  rw [if_neg h1', if_neg h2, if_neg h3, if_neg h4]
  have hf5 : ¬(false = true) := by decide
  have hg6 : ¬((!true) = true) := by decide
  rw [if_neg hf5, if_neg hg6, if_neg h7, if_neg h8, if_pos h9]

lemma core_accept (cfg : Config) (s : EngineState) (inp : EvalInput)
    (sc : ℤ) (h1 : (stOf s inp).stickyFatal = false)
    (h2 : ¬cooldownBlocked cfg (stOf s inp) inp.nowTs)
    (h3 : ¬ttlFires cfg (bumpEval (stOf s inp) inp.nowTs) inp.nowTs)
    (h4 : ¬obsGateFails inp) (h7 : ¬tierOf inp.eff sc = "REJECT")
    (h8 : ¬upgradeCooldownHit cfg (bumpScore (bumpEval (stOf s inp) inp.nowTs) sc)
      inp.nowTs (tierOf inp.eff sc))
    (h9 : ¬alreadyAcceptedNoUpgrade (bumpScore (bumpEval (stOf s inp) inp.nowTs) sc)
      (tierOf inp.eff sc)) :
    evaluateMintCore cfg s inp true false sc =
      { s with
        states := setState s.states inp.mint
          { bumpScore (bumpEval (stOf s inp) inp.nowTs) sc with
            lastAcceptedTs := some inp.nowTs,
            lastDecision := if tierOf inp.eff sc = "APEX" then .acceptedApex
              else .acceptedSmall },
        orders := upsertRow s.orders (acceptRow inp
          (if cfg.dryRun then "dry_run" else "pending") (tierOf inp.eff sc)),
        alertCalls := s.alertCalls ++
          [(inp.mint, if cfg.dryRun then "dry_run" else "pending", inp.nowTs)],
        heatCalls := s.heatCalls ++
          (if (if cfg.dryRun then "dry_run" else "pending") = "dry_run" ∧
              !(decide ((bumpScore (bumpEval (stOf s inp) inp.nowTs) sc).lastDecision
                  = .acceptedSmall ∨
                (bumpScore (bumpEval (stOf s inp) inp.nowTs) sc).lastDecision
                  = .acceptedApex))
            then [(inp.mint, inp.nowTs)] else []) } := by
  have h1' : ¬(stOf s inp).stickyFatal = true := by simp [h1]
  simp only [evaluateMintCore]
  rw [if_neg h1', if_neg h2, if_neg h3, if_neg h4]
  have hf5 : ¬(false = true) := by decide
  have hg6 : ¬((!true) = true) := by decide
  rw [if_neg hf5, if_neg hg6, if_neg h7, if_neg h8, if_neg h9]

lemma setState_eq_self (l : List (String × MintDecisionState)) (mint : String)
    (st : MintDecisionState) (h : l.lookup mint = some st) :
    setState l mint st = l := by
  induction l with
  | nil => simp [List.lookup] at h
  | cons p rest ih =>
      obtain ⟨k, v⟩ := p
      rw [lookup_cons] at h
      rw [setState]
      by_cases hk : k = mint
      · rw [if_pos hk]
        rw [if_pos hk.symm] at h
        have hv : v = st := Option.some.inj h
        rw [hk, hv]
      · rw [if_neg hk]
        rw [if_neg (fun he => hk he.symm)] at h
        rw [ih h]

lemma evaluateMint_eq_core (cfg : Config) (s : EngineState) (inp : EvalInput)
    (g f : Bool) (sc : ℤ) (hg : (safetyGate inp.snapshot).pass = g)
    (hf : decide (inp.snapshot.sameFunderRatio > 75/100) = f)
    (hs : convictionFromMicro inp.snapshot inp.cohortBoost inp.grBoost = sc) :
    evaluateMint cfg s inp = evaluateMintCore cfg s inp g f sc := by
  rw [evaluateMint, hg, hf, hs]

/-- A mint whose stored decision state is sticky-fatal is never touched
again: the whole module state is returned unchanged. -/
lemma evaluateMint_sticky_noop (cfg : Config) (s : EngineState)
    (inp : EvalInput) (st : MintDecisionState)
    (hl : s.states.lookup inp.mint = some st) (hs : st.stickyFatal = true) :
    evaluateMint cfg s inp = s := by
  have hst : stOf s inp = st := by rw [stOf, hl]; rfl
  rw [evaluateMint, core_sticky cfg s inp _ _ _ (by rw [hst]; exact hs)]
  rw [hst, setState_eq_self s.states inp.mint st hl]

/-- With `dryRun = false` no branch of `evaluateMint` appends a heat call
(`recordHeatAccept` is gated on `status === 'dry_run'`, line 228). -/
lemma evaluateMintCore_heatCalls_frozen (cfg : Config) (s : EngineState)
    (inp : EvalInput) (g f : Bool) (sc : ℤ) (hd : cfg.dryRun = false) :
    (evaluateMintCore cfg s inp g f sc).heatCalls = s.heatCalls := by
  cases h1 : (stOf s inp).stickyFatal with
  | true => rw [core_sticky cfg s inp g f sc h1]
  | false =>
    by_cases h2 : cooldownBlocked cfg (stOf s inp) inp.nowTs
    · rw [core_cooldown cfg s inp g f sc h1 h2]
    by_cases h3 : ttlFires cfg (bumpEval (stOf s inp) inp.nowTs) inp.nowTs
    · rw [core_ttl cfg s inp g f sc h1 h2 h3]
    by_cases h4 : obsGateFails inp
    · rw [core_obsGate cfg s inp g f sc h1 h2 h3 h4]
    cases f with
    | true => rw [core_fatal cfg s inp g sc h1 h2 h3 h4]
    | false =>
      cases g with
      | false => rw [core_soft cfg s inp sc h1 h2 h3 h4]
      | true =>
        by_cases h7 : tierOf inp.eff sc = "REJECT"
        · rw [core_tier_reject cfg s inp sc h1 h2 h3 h4 h7]
        by_cases h8 : upgradeCooldownHit cfg
            (bumpScore (bumpEval (stOf s inp) inp.nowTs) sc) inp.nowTs
            (tierOf inp.eff sc)
        · rw [core_upgrade_cooldown cfg s inp sc h1 h2 h3 h4 h7 h8]
        by_cases h9 : alreadyAcceptedNoUpgrade
            (bumpScore (bumpEval (stOf s inp) inp.nowTs) sc) (tierOf inp.eff sc)
        · rw [core_already_accepted cfg s inp sc h1 h2 h3 h4 h7 h8 h9]
        rw [core_accept cfg s inp sc h1 h2 h3 h4 h7 h8 h9]
        rw [hd]
        simp

lemma evaluateMint_heatCalls_frozen (cfg : Config) (s : EngineState)
    (inp : EvalInput) (hd : cfg.dryRun = false) :
    (evaluateMint cfg s inp).heatCalls = s.heatCalls := by
  rw [evaluateMint]
  exact evaluateMintCore_heatCalls_frozen _ _ _ _ _ _ hd

lemma bumpEval_lastDecision (st : MintDecisionState) (n : ℤ) :
    (bumpEval st n).lastDecision = st.lastDecision := rfl

lemma bumpScore_lastDecision (st : MintDecisionState) (sc : ℤ) :
    (bumpScore st sc).lastDecision = st.lastDecision := rfl

lemma heatCalls_cond_neg (cfg : Config) (s : EngineState) (inp : EvalInput)
    (g f : Bool) (sc : ℤ) (h : ¬acceptReached cfg s inp g f sc) :
    (if acceptReached cfg s inp g f sc ∧ cfg.dryRun = true ∧
        ¬((stOf s inp).lastDecision = LastDecision.acceptedSmall ∨
          (stOf s inp).lastDecision = LastDecision.acceptedApex)
      then [(inp.mint, inp.nowTs)] else ([] : List (String × ℤ))) = [] :=
  if_neg (fun hc => h hc.1)

/-- Per-call characterization of the heat calls: `recordHeatAccept` is
appended exactly when the accept write is reached with `dryRun = true`
and the pre-call decision is not an accepted state (`wasAccepted` is
false); every other branch leaves the log unchanged. -/
lemma evaluateMintCore_heatCalls_char (cfg : Config) (s : EngineState)
    (inp : EvalInput) (g f : Bool) (sc : ℤ) :
    (evaluateMintCore cfg s inp g f sc).heatCalls =
      s.heatCalls ++
        (if acceptReached cfg s inp g f sc ∧ cfg.dryRun = true ∧
            ¬((stOf s inp).lastDecision = LastDecision.acceptedSmall ∨
              (stOf s inp).lastDecision = LastDecision.acceptedApex)
          then [(inp.mint, inp.nowTs)] else [])  := by
  by_cases hs1 : (stOf s inp).stickyFatal = true
  · rw [core_sticky cfg s inp g f sc hs1,
      heatCalls_cond_neg cfg s inp g f sc
        (fun ha => Bool.false_ne_true (ha.1 ▸ hs1)),
      List.append_nil]
  · have h1 : (stOf s inp).stickyFatal = false := Bool.eq_false_iff.mpr hs1
    by_cases h2 : cooldownBlocked cfg (stOf s inp) inp.nowTs
    · rw [core_cooldown cfg s inp g f sc h1 h2,
        heatCalls_cond_neg cfg s inp g f sc (fun ha => ha.2.1 h2),
        List.append_nil]
    by_cases h3 : ttlFires cfg (bumpEval (stOf s inp) inp.nowTs) inp.nowTs
    · rw [core_ttl cfg s inp g f sc h1 h2 h3,
        heatCalls_cond_neg cfg s inp g f sc (fun ha => ha.2.2.1 h3),
        List.append_nil]
    by_cases h4 : obsGateFails inp
    · rw [core_obsGate cfg s inp g f sc h1 h2 h3 h4,
        heatCalls_cond_neg cfg s inp g f sc (fun ha => ha.2.2.2.1 h4),
        List.append_nil]
    cases f with
    | true =>
        rw [core_fatal cfg s inp g sc h1 h2 h3 h4,
          heatCalls_cond_neg cfg s inp g true sc
            (fun ha => Bool.noConfusion ha.2.2.2.2.1),
          List.append_nil]
    | false =>
      cases g with
      | false =>
          rw [core_soft cfg s inp sc h1 h2 h3 h4,
            heatCalls_cond_neg cfg s inp false false sc
              (fun ha => Bool.noConfusion ha.2.2.2.2.2.1),
            List.append_nil]
      | true =>
        by_cases h7 : tierOf inp.eff sc = "REJECT"
        · rw [core_tier_reject cfg s inp sc h1 h2 h3 h4 h7,
            heatCalls_cond_neg cfg s inp true false sc
              (fun ha => ha.2.2.2.2.2.2.1 h7),
            List.append_nil]
        by_cases h8 : upgradeCooldownHit cfg
            (bumpScore (bumpEval (stOf s inp) inp.nowTs) sc) inp.nowTs
            (tierOf inp.eff sc)
        · rw [core_upgrade_cooldown cfg s inp sc h1 h2 h3 h4 h7 h8,
            heatCalls_cond_neg cfg s inp true false sc
              (fun ha => ha.2.2.2.2.2.2.2.1 h8),
            List.append_nil]
        by_cases h9 : alreadyAcceptedNoUpgrade
            (bumpScore (bumpEval (stOf s inp) inp.nowTs) sc) (tierOf inp.eff sc)
        · rw [core_already_accepted cfg s inp sc h1 h2 h3 h4 h7 h8 h9,
            heatCalls_cond_neg cfg s inp true false sc
              (fun ha => ha.2.2.2.2.2.2.2.2 h9),
            List.append_nil]
        rw [core_accept cfg s inp sc h1 h2 h3 h4 h7 h8 h9]
        have hcond : ((if cfg.dryRun then "dry_run" else "pending") = "dry_run" ∧
            (!(decide
              ((bumpScore (bumpEval (stOf s inp) inp.nowTs) sc).lastDecision =
                  LastDecision.acceptedSmall ∨
                (bumpScore (bumpEval (stOf s inp) inp.nowTs) sc).lastDecision =
                  LastDecision.acceptedApex))) = true) ↔
            (acceptReached cfg s inp true false sc ∧ cfg.dryRun = true ∧
              ¬((stOf s inp).lastDecision = LastDecision.acceptedSmall ∨
                (stOf s inp).lastDecision = LastDecision.acceptedApex)) := by
          constructor
          · rintro ⟨ha, hb⟩
            refine ⟨⟨h1, h2, h3, h4, rfl, rfl, h7, h8, h9⟩, ?_, ?_⟩
            · cases hdd : cfg.dryRun
              · rw [hdd] at ha
                simp at ha
              · rfl
            · intro hp
              have hp2 : (bumpScore (bumpEval (stOf s inp) inp.nowTs)
                    sc).lastDecision = LastDecision.acceptedSmall ∨
                  (bumpScore (bumpEval (stOf s inp) inp.nowTs)
                    sc).lastDecision = LastDecision.acceptedApex := hp
              rw [decide_eq_true hp2] at hb
              simp at hb
          · rintro ⟨hAR, hdt, hnp⟩
            have hnp2 : ¬((bumpScore (bumpEval (stOf s inp) inp.nowTs)
                  sc).lastDecision = LastDecision.acceptedSmall ∨
                (bumpScore (bumpEval (stOf s inp) inp.nowTs)
                  sc).lastDecision = LastDecision.acceptedApex) :=
              fun hpb => hnp hpb
            refine ⟨by simp [hdt], ?_⟩
            rw [decide_eq_false hnp2]
            decide
        rw [if_congr hcond rfl rfl]

lemma foldl_heatCalls_frozen (cfg : Config) (hd : cfg.dryRun = false)
    (l : List EvalInput) :
    ∀ s : EngineState, (l.foldl (evaluateMint cfg) s).heatCalls = s.heatCalls := by
  induction l with
  | nil => intro s; rfl
  | cons a t ih =>
      intro s
      rw [List.foldl_cons, ih, evaluateMint_heatCalls_frozen cfg s a hd]

lemma evalA (cfg : Config) (s : EngineState) :
    evaluateMint cfg s evA = evaluateMintCore cfg s evA true false 80 :=
  evaluateMint_eq_core _ _ _ _ _ _
    (by norm_num [safetyGate, evA, snapA])
    (decide_eq_false (by norm_num [evA, snapA]))
    (by norm_num [convictionFromMicro, evA, snapA])

lemma evalZ (cfg : Config) (s : EngineState) :
    evaluateMint cfg s evZ = evaluateMintCore cfg s evZ false false 0 :=
  evaluateMint_eq_core _ _ _ _ _ _
    (by norm_num [safetyGate, evZ, snapZero])
    (decide_eq_false (by norm_num [evZ, snapZero]))
    (by norm_num [convictionFromMicro, evZ, snapZero])

lemma evalB (cfg : Config) (s : EngineState) :
    evaluateMint cfg s evB = evaluateMintCore cfg s evB true false 70 :=
  evaluateMint_eq_core _ _ _ _ _ _
    (by norm_num [safetyGate, evB, snapB])
    (decide_eq_false (by norm_num [evB, snapB]))
    (by norm_num [convictionFromMicro, evB, snapB])

lemma evalF (cfg : Config) (s : EngineState) :
    evaluateMint cfg s evF = evaluateMintCore cfg s evF false true 60 :=
  evaluateMint_eq_core _ _ _ _ _ _
    (by norm_num [safetyGate, evF, snapF])
    (decide_eq_true (by norm_num [evF, snapF]))
    (by norm_num [convictionFromMicro, evF, snapF])

lemma evalB1 (cfg : Config) (s : EngineState) :
    evaluateMint cfg s evB1 = evaluateMintCore cfg s evB1 true false 70 :=
  evaluateMint_eq_core _ _ _ _ _ _
    (by norm_num [safetyGate, evB1, snapB])
    (decide_eq_false (by norm_num [evB1, snapB]))
    (by norm_num [convictionFromMicro, evB1, snapB])

lemma evalA3 (cfg : Config) (s : EngineState) :
    evaluateMint cfg s evA3 = evaluateMintCore cfg s evA3 true false 80 :=
  evaluateMint_eq_core _ _ _ _ _ _
    (by norm_num [safetyGate, evA3, snapA])
    (decide_eq_false (by norm_num [evA3, snapA]))
    (by norm_num [convictionFromMicro, evA3, snapA])

/-- Every branch of the core writes the decision state back under the
call's mint. -/
lemma evaluateMintCore_states_shape (cfg : Config) (s : EngineState)
    (inp : EvalInput) (g f : Bool) (sc : ℤ) :
    ∃ st', (evaluateMintCore cfg s inp g f sc).states =
      setState s.states inp.mint st' := by
  cases h1 : (stOf s inp).stickyFatal with
  | true => exact ⟨_, by rw [core_sticky cfg s inp g f sc h1]⟩
  | false =>
    by_cases h2 : cooldownBlocked cfg (stOf s inp) inp.nowTs
    · exact ⟨_, by rw [core_cooldown cfg s inp g f sc h1 h2]⟩
    by_cases h3 : ttlFires cfg (bumpEval (stOf s inp) inp.nowTs) inp.nowTs
    · exact ⟨_, by rw [core_ttl cfg s inp g f sc h1 h2 h3]⟩
    by_cases h4 : obsGateFails inp
    · exact ⟨_, by rw [core_obsGate cfg s inp g f sc h1 h2 h3 h4]⟩
    cases f with
    | true => exact ⟨_, by rw [core_fatal cfg s inp g sc h1 h2 h3 h4]⟩
    | false =>
      cases g with
      | false => exact ⟨_, by rw [core_soft cfg s inp sc h1 h2 h3 h4]⟩
      | true =>
        by_cases h7 : tierOf inp.eff sc = "REJECT"
        · exact ⟨_, by rw [core_tier_reject cfg s inp sc h1 h2 h3 h4 h7]⟩
        by_cases h8 : upgradeCooldownHit cfg
            (bumpScore (bumpEval (stOf s inp) inp.nowTs) sc) inp.nowTs
            (tierOf inp.eff sc)
        · exact ⟨_, by rw [core_upgrade_cooldown cfg s inp sc h1 h2 h3 h4 h7 h8]⟩
        by_cases h9 : alreadyAcceptedNoUpgrade
            (bumpScore (bumpEval (stOf s inp) inp.nowTs) sc) (tierOf inp.eff sc)
        · exact ⟨_, by rw [core_already_accepted cfg s inp sc h1 h2 h3 h4 h7 h8 h9]⟩
        exact ⟨_, by rw [core_accept cfg s inp sc h1 h2 h3 h4 h7 h8 h9]⟩

/-- The core either leaves `orders` alone, hands the fatal rejection row
to `INSERT OR IGNORE`, or hands an accept row to the UPSERT. -/
lemma evaluateMintCore_orders_shape (cfg : Config) (s : EngineState)
    (inp : EvalInput) (g f : Bool) (sc : ℤ) :
    (evaluateMintCore cfg s inp g f sc).orders = s.orders ∨
    (evaluateMintCore cfg s inp g f sc).orders =
      insertOrIgnore s.orders (fatalRow inp) ∨
    ∃ status : String, (evaluateMintCore cfg s inp g f sc).orders =
      upsertRow s.orders (acceptRow inp status (tierOf inp.eff sc)) := by
  cases h1 : (stOf s inp).stickyFatal with
  | true => exact .inl (by rw [core_sticky cfg s inp g f sc h1])
  | false =>
    by_cases h2 : cooldownBlocked cfg (stOf s inp) inp.nowTs
    · exact .inl (by rw [core_cooldown cfg s inp g f sc h1 h2])
    by_cases h3 : ttlFires cfg (bumpEval (stOf s inp) inp.nowTs) inp.nowTs
    · exact .inl (by rw [core_ttl cfg s inp g f sc h1 h2 h3])
    by_cases h4 : obsGateFails inp
    · exact .inl (by rw [core_obsGate cfg s inp g f sc h1 h2 h3 h4])
    cases f with
    | true => exact .inr (.inl (by rw [core_fatal cfg s inp g sc h1 h2 h3 h4]))
    | false =>
      cases g with
      | false => exact .inl (by rw [core_soft cfg s inp sc h1 h2 h3 h4])
      | true =>
        by_cases h7 : tierOf inp.eff sc = "REJECT"
        · exact .inl (by rw [core_tier_reject cfg s inp sc h1 h2 h3 h4 h7])
        by_cases h8 : upgradeCooldownHit cfg
            (bumpScore (bumpEval (stOf s inp) inp.nowTs) sc) inp.nowTs
            (tierOf inp.eff sc)
        · exact .inl (by rw [core_upgrade_cooldown cfg s inp sc h1 h2 h3 h4 h7 h8])
        by_cases h9 : alreadyAcceptedNoUpgrade
            (bumpScore (bumpEval (stOf s inp) inp.nowTs) sc) (tierOf inp.eff sc)
        · exact .inl (by rw [core_already_accepted cfg s inp sc h1 h2 h3 h4 h7 h8 h9])
        exact .inr (.inr ⟨_, by rw [core_accept cfg s inp sc h1 h2 h3 h4 h7 h8 h9]⟩)

lemma mem_setState (l : List (String × MintDecisionState)) (mint : String)
    (st : MintDecisionState) (q : String × MintDecisionState)
    (h : q ∈ setState l mint st) : q = (mint, st) ∨ q ∈ l := by
  induction l with
  | nil =>
      rw [setState] at h
      rcases List.mem_singleton.mp h with rfl
      exact .inl rfl
  | cons p rest ih =>
      obtain ⟨k, v⟩ := p
      rw [setState] at h
      by_cases hk : k = mint
      · rw [if_pos hk] at h
        rcases List.mem_cons.mp h with rfl | hq
        · exact .inl rfl
        · exact .inr (List.mem_cons_of_mem _ hq)
      · rw [if_neg hk] at h
        rcases List.mem_cons.mp h with rfl | hq
        · exact .inr (List.mem_cons_self _ _)
        · rcases ih hq with h' | h'
          · exact .inl h'
          · exact .inr (List.mem_cons_of_mem _ h')

lemma mem_insertOrIgnore (db : List OrderRow) (row r : OrderRow)
    (h : r ∈ insertOrIgnore db row) : r ∈ db ∨ r = row := by
  rw [insertOrIgnore] at h
  split at h
  · exact .inl h
  · rcases List.mem_append.mp h with h' | h'
    · exact .inl h'
    · exact .inr (List.mem_singleton.mp h')

/-- The `DO UPDATE` clause rewrites `status`, `size_tier` and
`decided_ts` only: every row of the updated table carries the `market`
and `mint` of a pre-existing row. -/
lemma mem_applyUpd (db : List OrderRow) (row r : OrderRow)
    (h : r ∈ applyUpd db row) :
    ∃ r0 ∈ db, r.market = r0.market ∧ r.mint = r0.mint := by
  induction db with
  | nil => rw [applyUpd] at h; cases h
  | cons r1 rest ih =>
      rw [applyUpd] at h
      split at h
      · rcases List.mem_cons.mp h with rfl | hq
        · refine ⟨r1, List.mem_cons_self _ _, ?_⟩
          split <;> exact ⟨rfl, rfl⟩
        · exact ⟨r, List.mem_cons_of_mem _ hq, rfl, rfl⟩
      · rcases List.mem_cons.mp h with rfl | hq
        · exact ⟨r, List.mem_cons_self _ _, rfl, rfl⟩
        · obtain ⟨r0, hr0, he⟩ := ih hq
          exact ⟨r0, List.mem_cons_of_mem _ hr0, he⟩

lemma mem_upsertRow (db : List OrderRow) (row r : OrderRow)
    (h : r ∈ upsertRow db row) :
    r = row ∨ ∃ r0 ∈ db, r.market = r0.market ∧ r.mint = r0.mint := by
  rw [upsertRow] at h
  split at h
  · exact .inr (mem_applyUpd db row r h)
  · rcases List.mem_append.mp h with h' | h'
    · exact .inr ⟨r, h', rfl, rfl⟩
    · exact .inl (List.mem_singleton.mp h')

lemma mem_setMicro (l : List (String × MintState)) (mint : String)
    (st : MintState) (q : String × MintState)
    (h : q ∈ setMicro l mint st) : q = (mint, st) ∨ q ∈ l := by
  induction l with
  | nil =>
      rw [setMicro] at h
      rcases List.mem_singleton.mp h with rfl
      exact .inl rfl
  | cons p rest ih =>
      obtain ⟨k, v⟩ := p
      rw [setMicro] at h
      by_cases hk : k = mint
      · rw [if_pos hk] at h
        rcases List.mem_cons.mp h with rfl | hq
        · exact .inl rfl
        · exact .inr (List.mem_cons_of_mem _ hq)
      · rw [if_neg hk] at h
        rcases List.mem_cons.mp h with rfl | hq
        · exact .inr (List.mem_cons_self _ _)
        · rcases ih hq with h' | h'
          · exact .inl h'
          · exact .inr (List.mem_cons_of_mem _ h')

/-- One `evaluateMint` call on a valid mint keeps every decision-state
key and every orders row (market and mint columns) valid. -/
lemma evaluateMint_preserves_valid (sub : List String) (cfg : Config)
    (s : EngineState) (inp : EvalInput)
    (hm : isValidMint sub inp.mint = true)
    (hst : ∀ q ∈ s.states, isValidMint sub q.1 = true)
    (hor : ∀ r ∈ s.orders,
      isValidMint sub r.market = true ∧ isValidMint sub r.mint = true) :
    (∀ q ∈ (evaluateMint cfg s inp).states, isValidMint sub q.1 = true) ∧
    (∀ r ∈ (evaluateMint cfg s inp).orders,
      isValidMint sub r.market = true ∧ isValidMint sub r.mint = true) := by
  rw [evaluateMint]
  constructor
  · obtain ⟨st', hs'⟩ := evaluateMintCore_states_shape cfg s inp _ _ _
    rw [hs']
    intro q hq
    rcases mem_setState _ _ _ _ hq with rfl | hq'
    · exact hm
    · exact hst q hq'
  · rcases evaluateMintCore_orders_shape cfg s inp _ _ _ with h | h | ⟨status, h⟩
    · rw [h]; exact hor
    · rw [h]
      intro r hr
      rcases mem_insertOrIgnore _ _ _ hr with hr' | rfl
      · exact hor r hr'
      · exact ⟨hm, hm⟩
    · rw [h]
      intro r hr
      rcases mem_upsertRow _ _ _ hr with rfl | ⟨r0, hr0, hmk, hmt⟩
      · exact ⟨hm, hm⟩
      · rw [hmk, hmt]
        exact hor r0 hr0

lemma isValidMint_ne_empty (sub : List String) (m : String)
    (h : isValidMint sub m = true) : ¬m = "" := by
  intro he
  subst he
  simp [isValidMint] at h

lemma ingest_preserves_valid (sub : List String) (cfg : Config)
    (w : WatcherState) (b : BatchIn) (m : String)
    (seen : List (String × List String))
    (hm : isValidMint sub m = true) (hw : WValid sub w) :
    WValid sub (ingest cfg w b m seen) := by
  obtain ⟨h1, h2, h3, h4⟩ := hw
  simp only [ingest]
  rw [if_neg (isValidMint_ne_empty sub m hm)]
  refine ⟨?_, ?_, ?_, ?_⟩
  · intro q hq
    rcases mem_setMicro _ _ _ _ hq with rfl | hq'
    · exact hm
    · exact h1 q hq'
  · exact (evaluateMint_preserves_valid sub cfg w.engine _ hm h2 h3).1
  · exact (evaluateMint_preserves_valid sub cfg w.engine _ hm h2 h3).2
  · intro mt hmt
    split at hmt
    · exact h4 mt hmt
    · rcases List.mem_append.mp hmt with h' | h'
      · exact h4 mt h'
      · rcases List.mem_singleton.mp h' with rfl
        exact hm

/-- With `config.txLookup.mode = 'off'` the mint a batch stores is always
the `isValidMint`-screened parsed mint, so validity of all four stores is
preserved by every batch. -/
lemma processBatch_preserves_valid (cfg : Config) (p : PipeCfg)
    (w : WatcherState) (b : BatchIn) (hoff : p.txMode = "off")
    (hw : WValid p.subscribed w) :
    WValid p.subscribed (processBatch cfg p w b) := by
  rw [processBatch]
  cases b.candidates.head? with
  | none => exact hw
  | some m0 =>
    dsimp only
    by_cases hv : isValidMint p.subscribed m0 = true
    · rw [if_neg (by simp [hv])]
      by_cases hd : sigDup w b m0 = true
      · rw [if_pos hd]
        exact hw
      · rw [if_neg hd]
        have hm0 : pipeMint p b m0 = m0 :=
          if_neg (fun hc => hc.2.2 hoff)
        by_cases hdv : dropVerify cfg p w b (pipeMint p b m0) = true
        · rw [if_pos hdv]
          exact hw
        · rw [if_neg hdv, hm0]
          exact ingest_preserves_valid _ _ _ _ _ _ hv hw
    · have hv' : isValidMint p.subscribed m0 = false := by
        revert hv
        cases isValidMint p.subscribed m0 <;> simp
      rw [hv']
      rw [if_pos (by decide : (!false) = true)]
      exact hw

/-- C5: `safetyGate` fails exactly on `buyers < 4 ∨ sameFunderRatio > 0.70 ∨
depthEst < 0.15`, reports exactly the failing rules' reason strings (in that
order) when failing and the three satisfied-rule names when passing, and the
boundary values behave as claimed: `buyers = 4`, `sameFunderRatio = 0.70`,
`depthEst = 0.15` pass while `buyers = 3`, `sameFunderRatio = 0.71`,
`depthEst = 0.149` fail. -/
theorem safetyGate_characterization :
    (∀ s : MicroSnapshot,
      ((safetyGate s).pass = false ↔
        (s.buyers < 4 ∨ s.sameFunderRatio > 7/10 ∨ s.depthEst < 3/20)) ∧
      (safetyGate s).reasons =
        (if s.buyers < 4 then ["buyers<4"] else []) ++
        (if s.sameFunderRatio > 7/10 then ["sameFunderRatio>0.70"] else []) ++
        (if s.depthEst < 3/20 then ["depthEst<0.15"] else []) ++
        (if (safetyGate s).pass
          then ["buyers>=4", "sameFunderRatio<=0.70", "depthEst>=0.15"] else [])) ∧
    (safetyGate ⟨4, 1, 7/10, 0, 3/20, 0⟩).pass = true ∧
    (safetyGate ⟨4, 1, 7/10, 0, 3/20, 0⟩).reasons =
      ["buyers>=4", "sameFunderRatio<=0.70", "depthEst>=0.15"] ∧
    (safetyGate ⟨3, 1, 0, 0, 1, 0⟩).pass = false ∧
    (safetyGate ⟨3, 1, 0, 0, 1, 0⟩).reasons = ["buyers<4"] ∧
    (safetyGate ⟨4, 1, 71/100, 0, 1, 0⟩).pass = false ∧
    (safetyGate ⟨4, 1, 71/100, 0, 1, 0⟩).reasons = ["sameFunderRatio>0.70"] ∧
    (safetyGate ⟨4, 1, 0, 0, 149/1000, 0⟩).pass = false ∧
    (safetyGate ⟨4, 1, 0, 0, 149/1000, 0⟩).reasons = ["depthEst<0.15"] := by
  refine ⟨fun s => ?_, by norm_num [safetyGate], by norm_num [safetyGate],
    by norm_num [safetyGate], by norm_num [safetyGate], by norm_num [safetyGate],
    by norm_num [safetyGate], by norm_num [safetyGate], by norm_num [safetyGate]⟩
  constructor
  · simp only [safetyGate, Bool.and_eq_false_iff, Bool.not_eq_false']
    constructor
    · rintro (h | h)
      · rcases h with h | h
        · exact Or.inl (by simpa using of_decide_eq_true h)
        · exact Or.inr (Or.inl (by simpa using of_decide_eq_true h))
      · exact Or.inr (Or.inr (by simpa using of_decide_eq_true h))
    · rintro (h | h | h)
      · exact Or.inl (Or.inl (decide_eq_true (by simpa using h)))
      · exact Or.inl (Or.inr (decide_eq_true (by simpa using h)))
      · exact Or.inr (decide_eq_true (by simpa using h))
  · simp only [safetyGate]
    by_cases h1 : s.buyers < 4 <;> by_cases h2 : s.sameFunderRatio > 7/10 <;>
      by_cases h3 : s.depthEst < 3/20 <;>
      simp [h1, h2, h3]

/-- C6: `convictionFromMicro` is the clamp to `[0,100]` of the spec's
bucket table (highest satisfied tier per bucket, `−20` same-funder penalty)
plus the cohort and deployer boosts, and the concrete snapshot
`{buyers:8, uniqueFunders:6, sameFunderRatio:0.3, priceJumps:1, depthEst:0.4}`
with no boosts scores exactly `30+20+10+20 = 80`. -/
theorem convictionFromMicro_spec :
    (∀ (s : MicroSnapshot) (cohortBoost grBoost : ℤ),
      convictionFromMicro s cohortBoost grBoost =
        clampZ (specBucketSum s + cohortBoost + grBoost) 0 100) ∧
    convictionFromMicro ⟨8, 6, 3/10, 1, 4/10, 0⟩ 0 0 = 80 := by
  refine ⟨fun s cb gb => ?_, by norm_num [convictionFromMicro]⟩
  have hb : (if s.buyers ≥ 8 then (30 : ℤ) else if s.buyers ≥ 6 then 20 else 0) =
      max (if 8 ≤ s.buyers then 30 else 0) (if 6 ≤ s.buyers then 20 else 0) := by
    by_cases h8 : 8 ≤ s.buyers
    · have h6 : 6 ≤ s.buyers := le_trans (by norm_num) h8
      simp [h8, h6]
    · simp [h8]
      by_cases h6 : 6 ≤ s.buyers <;> simp [h6]
  have hf : (if s.uniqueFunders ≥ 6 then (20 : ℤ) else if s.uniqueFunders ≥ 5 then 15 else 0) =
      max (if 6 ≤ s.uniqueFunders then 20 else 0) (if 5 ≤ s.uniqueFunders then 15 else 0) := by
    by_cases h6 : 6 ≤ s.uniqueFunders
    · have h5 : 5 ≤ s.uniqueFunders := le_trans (by norm_num) h6
      simp [h6, h5]
    · simp [h6]
      by_cases h5 : 5 ≤ s.uniqueFunders <;> simp [h5]
  have hj : (if s.priceJumps ≥ 2 then (20 : ℤ) else if s.priceJumps ≥ 1 then 10 else 0) =
      max (if 2 ≤ s.priceJumps then 20 else 0) (if 1 ≤ s.priceJumps then 10 else 0) := by
    by_cases h2 : 2 ≤ s.priceJumps
    · have h1 : 1 ≤ s.priceJumps := le_trans (by norm_num) h2
      simp [h2, h1]
    · simp [h2]
      by_cases h1 : 1 ≤ s.priceJumps <;> simp [h1]
  have hd : (if s.depthEst ≥ 35/100 then (20 : ℤ) else if s.depthEst ≥ 30/100 then 10 else 0) =
      max (if (35/100 : ℚ) ≤ s.depthEst then 20 else 0)
        (if (30/100 : ℚ) ≤ s.depthEst then 10 else 0) := by
    by_cases h35 : (35/100 : ℚ) ≤ s.depthEst
    · have h30 : (30/100 : ℚ) ≤ s.depthEst := le_trans (by norm_num) h35
      simp [h35, h30, ge_iff_le]
    · simp [ge_iff_le, h35]
      by_cases h30 : (30/100 : ℚ) ≤ s.depthEst <;> simp [h30]
  simp only [convictionFromMicro, specBucketSum, clampZ, hb, hf, hj, hd]

/-- C4 (amended): for every sequence of `trackFirstN` calls for a mint, the
snapshot satisfies `0 ≤ sameFunderRatio`, `depthEst ∈ [0,1]`, and — as long
as no event has been evicted from the 100-entry FIFO, i.e. for at most 100
calls — `sameFunderRatio ≤ 1`.  (Beyond the cap the funder counts survive
eviction while `buyers` stays at 100, so the ratio can exceed 1; see the
counterexample.) -/
theorem micro_snapshot_bounds (l : List TrackIn) :
    0 ≤ (getSnapshot (runTrack l)).sameFunderRatio ∧
    0 ≤ (getSnapshot (runTrack l)).depthEst ∧
    (getSnapshot (runTrack l)).depthEst ≤ 1 ∧
    (l.length ≤ 100 → (getSnapshot (runTrack l)).sameFunderRatio ≤ 1) := by
  cases hst : runTrack l with
  | none =>
      simp [getSnapshot]
  | some st =>
      have inv := (runTrack_inv l).1 st hst
      obtain ⟨hlen, hsum⟩ := inv
      have hmax : maxCount st.funderCounts ≤ l.length :=
        le_trans (maxCount_le_sumCounts _) hsum
      simp only [getSnapshot]
      refine ⟨?_, ?_, ?_, ?_⟩
      · split
        · positivity
        · norm_num
      · exact le_max_left _ _
      · exact max_le (by norm_num) (min_le_left _ _)
      · intro hn
        split
        · next hpos =>
            have hb : st.events.length = l.length := by omega
            rw [div_le_one (by exact_mod_cast hpos.1)]
            rw [hb]
            exact_mod_cast hmax
        · norm_num

/-- Witness for `micro_snapshot_bounds` at a concrete one-call run. -/
theorem micro_snapshot_bounds_witness :
    (getSnapshot (runTrack [⟨0, some cexFunder, none⟩])).sameFunderRatio ≤ 1 :=
  (micro_snapshot_bounds [⟨0, some cexFunder, none⟩]).2.2.2 (by norm_num)

set_option maxRecDepth 100000 in
/-- C4 counterexample: after 101 events carrying the same funder, the FIFO
has dropped one event (`buyers = 100`) while the funder count map still
records 101 observations, so `sameFunderRatio = 101/100 > 1` — the claimed
bound `sameFunderRatio ∈ [0,1]` fails on this reachable state. -/
theorem micro_sameFunderRatio_gt_one :
    1 < (getSnapshot cexC4run).sameFunderRatio := by
  have hfacts : cexC4run.elim 0 (fun st => maxCount st.funderCounts) = 101 ∧
      cexC4run.elim 0 (fun st => st.events.length) = 100 ∧
      cexC4run.elim 0 (fun st => st.funderCounts.length) = 1 := by
    decide
  obtain ⟨h1, h2, h3⟩ := hfacts
  cases hst : cexC4run with
  | none =>
      rw [hst] at h1
      simp at h1
  | some st =>
      rw [hst] at h1 h2 h3
      simp only [Option.elim_some] at h1 h2 h3
      simp only [getSnapshot]
      rw [if_pos (by omega)]
      rw [h1, h2]
      norm_num

/-- C10: `trackFirstN` increments `priceJumps` only when a price was
previously recorded and that previous price is strictly positive (and the
relative change reaches 10%); in particular after a recorded price of `0`
the counter is never incremented, whatever the new price. -/
theorem trackFirstN_priceJump_guard :
    (∀ (st0 : Option MintState) (ts : ℤ) (funder : Option String) (price : Option ℚ),
      (trackFirstN st0 ts funder price).priceJumps ≠
          (st0.getD (initState ts)).priceJumps →
        ∃ p prev, price = some p ∧
          (st0.getD (initState ts)).lastPrice = some prev ∧
          0 < prev ∧ 1/10 ≤ |p - prev| / prev) ∧
    (∀ (st0 : Option MintState) (ts : ℤ) (funder : Option String) (price : Option ℚ),
      (st0.getD (initState ts)).lastPrice = some 0 →
        (trackFirstN st0 ts funder price).priceJumps =
          (st0.getD (initState ts)).priceJumps) := by
  have key : ∀ (st0 : Option MintState) (ts : ℤ) (funder : Option String) (p prev : ℚ),
      (st0.getD (initState ts)).lastPrice = some prev →
      (trackFirstN st0 ts funder (some p)).priceJumps =
        (if 0 < prev ∧ 1/10 ≤ |p - prev| / prev
          then (st0.getD (initState ts)).priceJumps + 1
          else (st0.getD (initState ts)).priceJumps) := by
    intro st0 ts funder p prev hlp
    rw [trackFirstN_priceJumps, hlp]
  have keyNone : ∀ (st0 : Option MintState) (ts : ℤ) (funder : Option String) (p : ℚ),
      (st0.getD (initState ts)).lastPrice = none →
      (trackFirstN st0 ts funder (some p)).priceJumps =
        (st0.getD (initState ts)).priceJumps := by
    intro st0 ts funder p hlp
    rw [trackFirstN_priceJumps, hlp]
  have keyNoPrice : ∀ (st0 : Option MintState) (ts : ℤ) (funder : Option String),
      (trackFirstN st0 ts funder none).priceJumps =
        (st0.getD (initState ts)).priceJumps := by
    intro st0 ts funder
    rw [trackFirstN_priceJumps]
  constructor
  · intro st0 ts funder price hne
    rcases price with _ | p
    · rw [keyNoPrice] at hne
      exact absurd rfl hne
    · rcases hlp : (st0.getD (initState ts)).lastPrice with _ | prev
      · rw [keyNone _ _ _ _ hlp] at hne
        exact absurd rfl hne
      · by_cases hc : 0 < prev ∧ 1/10 ≤ |p - prev| / prev
        · exact ⟨p, prev, rfl, rfl, hc.1, hc.2⟩
        · rw [key _ _ _ _ _ hlp, if_neg hc] at hne
          exact absurd rfl hne
  · intro st0 ts funder price hlp
    rcases price with _ | p
    · exact keyNoPrice _ _ _
    · rw [key _ _ _ _ _ hlp, if_neg]
      rintro ⟨hpos, -⟩
      exact lt_irrefl 0 hpos

/-- Witness for `trackFirstN_priceJump_guard`: with a recorded last price
of `0`, a subsequent price of `5` does not bump `priceJumps`. -/
theorem trackFirstN_priceJump_guard_witness :
    (trackFirstN (some { initState 0 with lastPrice := some 0 }) 1 none
        (some 5)).priceJumps =
      ((some { initState 0 with lastPrice := some 0 }).getD (initState 1)).priceJumps :=
  trackFirstN_priceJump_guard.2 (some { initState 0 with lastPrice := some 0 })
    1 none (some 5) rfl

/-- C7 (amended): the `getEffectiveThresholds` of the distinct-mint heat
controller (the one embedded in `firstNBlocks.ts`) returns
`apexScore = clamp(baseApexScore, floor.score, ceil.score)` for every heat
state and query time — no heat delta ever reaches apex.  In the
`market/heat.ts` variant, by contrast, `apexScore` receives the band's
`scoreDelta` exactly like `minScore` does. -/
theorem apexScore_heat_drift_characterization :
    (∀ (cfg : Config) (s : MicroHeat.State) (ts : ℤ),
      (MicroHeat.getEffectiveThresholds cfg s ts).1.apexScore =
        clampZ cfg.entry.apexScore cfg.heat.floor.score cfg.heat.ceil.score) ∧
    (∀ (cfg : Config) (s : MarketHeat.State) (ts : ℤ),
      (MarketHeat.getEffectiveThresholds cfg s ts).1.apexScore =
        clampZ (cfg.entry.apexScore + (MarketHeat.getHeat cfg.heat s ts).1.scoreDelta)
          cfg.heat.floor.score cfg.heat.ceil.score) :=
  ⟨fun _ _ _ => rfl, fun _ _ _ => rfl⟩

/-- C7 counterexample: on a fresh (COLD) heat state, the `market/heat.ts`
`getEffectiveThresholds` returns `apexScore = 70`, not
`clamp(baseApexScore, floor.score, ceil.score) = 80` — the claim that
`apexScore` never drifts with heat fails for that implementation. -/
theorem marketHeat_apexScore_drifts :
    (MarketHeat.getEffectiveThresholds cexCfg7
        (MarketHeat.initState cexCfg7.heat 0) 0).1.apexScore = 70 ∧
    clampZ cexCfg7.entry.apexScore cexCfg7.heat.floor.score
        cexCfg7.heat.ceil.score = 80 := by
  constructor
  · have hsum : (advanceTo 0 (MarketHeat.initState cexCfg7.heat 0).ring
        (MarketHeat.initState cexCfg7.heat 0).lastAbsMinute (minuteOf 0)).1.sum = 0 := by
      decide
    have ha : (MarketHeat.getAcceptsPerHour cexCfg7.heat
        (MarketHeat.initState cexCfg7.heat 0) 0).1 = 0 := by
      rw [MarketHeat.getAcceptsPerHour_val _ _ _ rfl, hsum]
      norm_num
    have hband : bandOf cexCfg7.heat 0 = .COLD := by
      rw [bandOf, if_pos]
      show (0:ℚ) < cexCfg7.heat.minAcceptsPerHr
      norm_num [cexCfg7, cexHeat7]
    have hsd : (MarketHeat.getHeat cexCfg7.heat
        (MarketHeat.initState cexCfg7.heat 0) 0).1.scoreDelta = -10 := by
      rw [MarketHeat.getHeat_val _ _ _ rfl, ha, hband]
      show (deltasOf cexCfg7.heat .COLD).1 = -10
      rw [deltasOf]
      norm_num [cexCfg7, cexHeat7]
    have := apexScore_heat_drift_characterization.2 cexCfg7
      (MarketHeat.initState cexCfg7.heat 0) 0
    rw [this, hsd]
    norm_num [cexCfg7, cexHeat7, clampZ]
  · norm_num [cexCfg7, cexHeat7, clampZ]

/-- C8 (amended): when the heat controller is enabled and the trace's
wall-clock minutes are nondecreasing from a nonnegative start (timestamps
are epoch milliseconds) and each mint is recorded at most once, the two
`acceptsPerHour` implementations — `market/heat.ts`'s count ring of length
`max(1, windowMin)` and the distinct-mint-set ring of length
`max(60, windowMin)` — return the same value at every query: the number of
distinct mints recorded in the last `windowMin` minutes times
`60/windowMin`.  (Without the monotonicity condition they disagree; see
the counterexample.) -/
theorem acceptsPerHour_variants_agree (cfg : HeatCfg) (m0 : ℤ)
    (ops : List HeatOp) (hen : cfg.enabled = true) (h0 : 0 ≤ m0)
    (hmono : MinutesMono m0 ops)
    (hnodup : ((recordsOf ops).map Prod.fst).Nodup) :
    MarketHeat.runOuts cfg (MarketHeat.initState cfg m0) ops =
      specOuts cfg [] ops ∧
    MicroHeat.runOuts cfg (MicroHeat.initState cfg m0) ops =
      specOuts cfg [] ops :=
  runs_agree cfg hen ops [] (MarketHeat.initState cfg m0)
    (MicroHeat.initState cfg m0) (MInv_init cfg m0 h0) (UInv_init cfg m0 h0)
    rfl hmono (by simpa using hnodup)

/-- Witness for `acceptsPerHour_variants_agree` on a concrete two-call
trace. -/
theorem acceptsPerHour_variants_agree_witness :
    MarketHeat.runOuts cexHeat7 (MarketHeat.initState cexHeat7 0)
        [HeatOp.record "A" 60000, HeatOp.query 120000] =
      specOuts cexHeat7 [] [HeatOp.record "A" 60000, HeatOp.query 120000] ∧
    MicroHeat.runOuts cexHeat7 (MicroHeat.initState cexHeat7 0)
        [HeatOp.record "A" 60000, HeatOp.query 120000] =
      specOuts cexHeat7 [] [HeatOp.record "A" 60000, HeatOp.query 120000] :=
  acceptsPerHour_variants_agree cexHeat7 0
    [HeatOp.record "A" 60000, HeatOp.query 120000] rfl (le_refl 0)
    (by
      refine ⟨?_, ?_, trivial⟩ <;>
        norm_num [HeatOp.minute, minuteOf])
    (by decide)

set_option maxRecDepth 100000 in
/-- C8 counterexample: on the trace `cexTrace8` — accepts of the distinct
mints "A" (minute 100) and "B" (minute 50, out of order) followed by a
query at minute 100 with `windowMin = 1` — the count variant reports 120
accepts/hour while the distinct-mint variant reports 60: the claim that
the two implementations agree on *every* sequence with at-most-once mints
is false (monotone timestamps are required). -/
theorem acceptsPerHour_variants_disagree :
    ((recordsOf cexTrace8).map Prod.fst).Nodup ∧
    MarketHeat.runOuts cexHeat8 (MarketHeat.initState cexHeat8 0) cexTrace8 =
      [120] ∧
    MicroHeat.runOuts cexHeat8 (MicroHeat.initState cexHeat8 0) cexTrace8 =
      [60] := by
  refine ⟨by decide, ?_, ?_⟩
  · have hstep : MarketHeat.runOuts cexHeat8 (MarketHeat.initState cexHeat8 0)
        cexTrace8 =
        [(MarketHeat.getAcceptsPerHour cexHeat8
          (MarketHeat.recordAccept cexHeat8
            (MarketHeat.recordAccept cexHeat8
              (MarketHeat.initState cexHeat8 0) 6000000) 3000000) 6000000).1] := rfl
    rw [hstep, MarketHeat.getAcceptsPerHour_val _ _ _ rfl]
    have hsum : (advanceTo 0
        (MarketHeat.recordAccept cexHeat8
          (MarketHeat.recordAccept cexHeat8
            (MarketHeat.initState cexHeat8 0) 6000000) 3000000).ring
        (MarketHeat.recordAccept cexHeat8
          (MarketHeat.recordAccept cexHeat8
            (MarketHeat.initState cexHeat8 0) 6000000) 3000000).lastAbsMinute
        (minuteOf 6000000)).1.sum = 2 := by decide
    rw [hsum]
    norm_num [cexHeat8, cexHeat7]
  · have hstep : MicroHeat.runOuts cexHeat8 (MicroHeat.initState cexHeat8 0)
        cexTrace8 =
        [(MicroHeat.getAcceptsPerHour cexHeat8
          (MicroHeat.recordAccept cexHeat8
            (MicroHeat.recordAccept cexHeat8
              (MicroHeat.initState cexHeat8 0) "A" 6000000) "B" 3000000) 6000000).1] := rfl
    rw [hstep, MicroHeat.getAcceptsPerHourDistinct_val _ _ _ rfl]
    have hcard : ((Finset.range (min (max 1 cexHeat8.windowMin)
        (advanceTo ∅
          (MicroHeat.recordAccept cexHeat8
            (MicroHeat.recordAccept cexHeat8
              (MicroHeat.initState cexHeat8 0) "A" 6000000) "B" 3000000).ring
          (MicroHeat.recordAccept cexHeat8
            (MicroHeat.recordAccept cexHeat8
              (MicroHeat.initState cexHeat8 0) "A" 6000000) "B" 3000000).lastAbsMinute
          (minuteOf 6000000)).1.length)).biUnion
        (fun i => (advanceTo ∅
          (MicroHeat.recordAccept cexHeat8
            (MicroHeat.recordAccept cexHeat8
              (MicroHeat.initState cexHeat8 0) "A" 6000000) "B" 3000000).ring
          (MicroHeat.recordAccept cexHeat8
            (MicroHeat.recordAccept cexHeat8
              (MicroHeat.initState cexHeat8 0) "A" 6000000) "B" 3000000).lastAbsMinute
          (minuteOf 6000000)).1.getD
            (jsIdx (minuteOf 6000000 - i)
              (advanceTo ∅
                (MicroHeat.recordAccept cexHeat8
                  (MicroHeat.recordAccept cexHeat8
                    (MicroHeat.initState cexHeat8 0) "A" 6000000) "B" 3000000).ring
                (MicroHeat.recordAccept cexHeat8
                  (MicroHeat.recordAccept cexHeat8
                    (MicroHeat.initState cexHeat8 0) "A" 6000000) "B" 3000000).lastAbsMinute
                (minuteOf 6000000)).1.length) ∅)).card = 1 := by decide
    rw [hcard]
    norm_num [cexHeat8, cexHeat7]

/-- C1 (code bug): with `dryRun = false`, a mint accepted at APEX whose
in-memory decision is later reset to `hold` by the deferred observation
gate can be re-accepted at SMALL, and the accept-path UPSERT (whose
`WHERE` clause only excludes `dry_run` rows) then rewrites the persisted
unitary-entry row's `size_tier` from APEX to SMALL — the downgrade the
claim says never occurs.  After `[evA]` the single orders row is APEX;
after `[evA, evZ, evB]` the same (only) row is SMALL with a later
`decided_ts`. -/
theorem apexRow_downgraded_to_small :
    (runEngine cfgLive [evA]).orders =
      [{ market := "M", type := "unitary-entry", status := "pending",
         mint := "M", origin := "pump", decidedTs := 1000, sizeTier := "APEX" }] ∧
    (runEngine cfgLive [evA, evZ, evB]).orders =
      [{ market := "M", type := "unitary-entry", status := "pending",
         mint := "M", origin := "pump", decidedTs := 60000, sizeTier := "SMALL" }] := by
  constructor
  · rw [runEngine, List.foldl, List.foldl, evalA]
    decide
  · rw [runEngine, List.foldl, List.foldl, List.foldl, List.foldl,
      evalA, evalZ, evalB]
    decide

/-- C2 (amended): a call that reaches the fatal gate (not sticky, not in
cooldown, no TTL fire, observation gate passed) with
`sameFunderRatio > 0.75` marks the state `rejected_fatal` and sticky,
records the fatal event, emits exactly one alert, and hands the rejection
row to `INSERT OR IGNORE` — which drops it when a `unitary-entry` row for
that market already exists, so "persists exactly one rejection row" only
holds when no prior row is present.  Afterwards every call for that mint
is a complete no-op on the module state. -/
theorem fatal_reject_characterization :
    ∀ (cfg : Config) (s : EngineState) (inp : EvalInput),
      (stOf s inp).stickyFatal = false →
      ¬cooldownBlocked cfg (stOf s inp) inp.nowTs →
      ¬ttlFires cfg (bumpEval (stOf s inp) inp.nowTs) inp.nowTs →
      ¬obsGateFails inp →
      inp.snapshot.sameFunderRatio > 75/100 →
      evaluateMint cfg s inp =
        { s with
          states := setState s.states inp.mint
            { bumpEval (stOf s inp) inp.nowTs with
              lastDecision := .rejectedFatal, stickyFatal := true },
          fatalRejectEvents := s.fatalRejectEvents ++ [inp.nowTs],
          orders := insertOrIgnore s.orders (fatalRow inp),
          alertCalls := s.alertCalls ++ [(inp.mint, "rejected_fatal", inp.nowTs)] } ∧
      ∀ inp2 : EvalInput, inp2.mint = inp.mint →
        evaluateMint cfg (evaluateMint cfg s inp) inp2 = evaluateMint cfg s inp := by
  intro cfg s inp h1 h2 h3 h4 hr
  have hf : decide (inp.snapshot.sameFunderRatio > 75/100) = true :=
    decide_eq_true hr
  have hA : evaluateMint cfg s inp =
      { s with
        states := setState s.states inp.mint
          { bumpEval (stOf s inp) inp.nowTs with
            lastDecision := .rejectedFatal, stickyFatal := true },
        fatalRejectEvents := s.fatalRejectEvents ++ [inp.nowTs],
        orders := insertOrIgnore s.orders (fatalRow inp),
        alertCalls := s.alertCalls ++ [(inp.mint, "rejected_fatal", inp.nowTs)] } := by
    rw [evaluateMint, hf]
    exact core_fatal cfg s inp _ _ h1 h2 h3 h4
  refine ⟨hA, fun inp2 hm => ?_⟩
  rw [hA]
  exact evaluateMint_sticky_noop _ _ _ _
    (by rw [hm]; exact lookup_setState_self _ _ _) rfl

theorem fatal_reject_characterization_witness :
    snapF.sameFunderRatio > 75/100 ∧
    (evaluateMint cfgDry initEngine evF).orders = [fatalRow evF] ∧
    (evaluateMint cfgDry initEngine evF).alertCalls =
      [("M", "rejected_fatal", 30000)] := by
  have h := (fatal_reject_characterization cfgDry initEngine evF
    (by decide) (by decide) (by decide) (by decide)
    (by norm_num [evF, snapF])).1
  refine ⟨by norm_num [snapF], ?_, ?_⟩ <;> rw [h] <;> decide

/-- C2 counterexample: when the mint already has an accepted
`unitary-entry` row (dry-run accept of `snapA` at ts 1000), a later fatal
reject at ts 30000 runs the fatal path (the fatal event and alert are
recorded) yet persists NO rejection row: the `INSERT OR IGNORE` conflicts
with the accepted row on `(market, type)` and is silently dropped. -/
theorem fatal_rejection_row_dropped :
    (runEngine cfgDry [evA, evF]).fatalRejectEvents = [30000] ∧
    (runEngine cfgDry [evA, evF]).alertCalls =
      [("M", "dry_run", 1000), ("M", "rejected_fatal", 30000)] ∧
    (runEngine cfgDry [evA, evF]).orders =
      [{ market := "M", type := "unitary-entry", status := "dry_run",
         mint := "M", origin := "pump", decidedTs := 1000, sizeTier := "APEX" }] := by
  rw [runEngine, List.foldl, List.foldl, List.foldl, evalA, evalF]
  exact ⟨by decide, by decide, by decide⟩

/-- C3 (amended): `recordHeatAccept(mint, nowTs)` is appended by exactly
those `evaluateMint` calls that reach the accept write with
`dryRun = true` and whose pre-call `lastDecision` is not an accepted
state (`entryEngine.ts` line 228: `status === 'dry_run' && !wasAccepted`).
Consequently (ii) with `dryRun = false` it is never called on any call
sequence — contradicting "regardless of the dryRun flag" — and (iii) it
is never called on a call whose pre-call state is already accepted, in
particular not on the SMALL→APEX upgrade.  It is NOT once-per-mint even
in dry-run mode: after the observation gate resets `lastDecision` to
`hold`, a later re-accept has `wasAccepted = false` and fires
`recordHeatAccept` a second time for the same mint (see the
counterexample). -/
theorem recordAccept_call_rule :
    (∀ (cfg : Config) (s : EngineState) (inp : EvalInput),
      (evaluateMint cfg s inp).heatCalls =
        s.heatCalls ++
          (if acceptReached cfg s inp (safetyGate inp.snapshot).pass
              (decide (inp.snapshot.sameFunderRatio > 75/100))
              (convictionFromMicro inp.snapshot inp.cohortBoost inp.grBoost) ∧
            cfg.dryRun = true ∧
            ¬((stOf s inp).lastDecision = LastDecision.acceptedSmall ∨
              (stOf s inp).lastDecision = LastDecision.acceptedApex)
            then [(inp.mint, inp.nowTs)] else [])) ∧
    (∀ (cfg : Config) (l : List EvalInput), cfg.dryRun = false →
      (runEngine cfg l).heatCalls = []) ∧
    (∀ (cfg : Config) (s : EngineState) (inp : EvalInput),
      (stOf s inp).lastDecision = LastDecision.acceptedSmall ∨
      (stOf s inp).lastDecision = LastDecision.acceptedApex →
      (evaluateMint cfg s inp).heatCalls = s.heatCalls) := by
  refine ⟨?_, ?_, ?_⟩
  · intro cfg s inp
    rw [evaluateMint]
    exact evaluateMintCore_heatCalls_char cfg s inp _ _ _
  · intro cfg l hd
    exact foldl_heatCalls_frozen cfg hd l initEngine
  · intro cfg s inp hP
    rw [evaluateMint, evaluateMintCore_heatCalls_char cfg s inp _ _ _,
      if_neg (fun hc => hc.2.2 hP), List.append_nil]

theorem recordAccept_call_rule_witness :
    cfgLive.dryRun = false ∧ (runEngine cfgLive [evA]).heatCalls = [] :=
  ⟨rfl, recordAccept_call_rule.2.1 cfgLive [evA] rfl⟩

/-- C3 counterexample, refuting both halves of the original claim.
Live mode: the first accept of a mint (an APEX accept persisted as
`pending`) makes no `recordAccept` call at all.  Dry-run mode: on
`[evA, evZ, evB]` the APEX accept at ts 1000 records a heat accept, the
all-zero snapshot at ts 30000 resets `lastDecision` to `hold` via the
observation gate, and the SMALL re-accept at ts 60000 then has
`wasAccepted = false` and records a SECOND heat accept for the same
mint — so "called exactly once per mint, on the first transition" fails
in every configuration. -/
theorem recordAccept_not_once_per_mint :
    (runEngine cfgLive [evA]).heatCalls = [] ∧
    (runEngine cfgLive [evA]).orders =
      [{ market := "M", type := "unitary-entry", status := "pending",
         mint := "M", origin := "pump", decidedTs := 1000, sizeTier := "APEX" }] ∧
    (runEngine cfgDry [evA, evZ, evB]).heatCalls =
      [("M", 1000), ("M", 60000)] := by
  refine ⟨?_, ?_, ?_⟩
  · rw [runEngine, List.foldl, List.foldl, evalA]
    decide
  · rw [runEngine, List.foldl, List.foldl, evalA]
    decide
  · rw [runEngine, List.foldl, List.foldl, List.foldl, List.foldl,
      evalA, evalZ, evalB]
    decide

/-- C9 (amended): when tx introspection is off (`config.txLookup.mode =
'off'`), every mint stored by any batch sequence in the microstructure
map, the engine decision-state map, the orders table (market and mint
columns) or the tokens table passes `isValidMint` — the parsed mint is
validated in `parseLogs` and never replaced.  With introspection enabled
the invariant fails (see the counterexample): the replacement
`evt.mint = info.mint` is not re-validated. -/
theorem stored_mints_valid :
    ∀ (cfg : Config) (p : PipeCfg) (bs : List BatchIn), p.txMode = "off" →
      WValid p.subscribed (bs.foldl (processBatch cfg p) initWatcher) := by
  intro cfg p bs hoff
  have hstep : ∀ w, WValid p.subscribed w →
      WValid p.subscribed (bs.foldl (processBatch cfg p) w) := by
    induction bs with
    | nil => intro w hw; exact hw
    | cons b t ih =>
        intro w hw
        rw [List.foldl_cons]
        exact ih _ (processBatch_preserves_valid cfg p w b hoff hw)
  refine hstep _ ⟨?_, ?_, ?_, ?_⟩ <;> intro x hx <;>
    simp [initWatcher, initEngine] at hx

theorem stored_mints_valid_witness :
    pOff.txMode = "off" ∧
    WValid pOff.subscribed
      (List.foldl (processBatch cfgLive pOff) initWatcher [bEvil]) :=
  ⟨rfl, stored_mints_valid cfgLive pOff [bEvil] rfl⟩

/-- C9 counterexample: one pumpfun batch processed with
`txLookup.mode ≠ 'off'` whose introspection RPC result is the denylisted
system program id `11111...111`.  The watcher replaces the validated
parsed mint with it (line 196) without re-running `isValidMint`, and the
invalid mint lands in ALL four stores: the microstructure map, the engine
decision-state map, the orders table (as the market/mint of the fatal
rejection row its ratio-1 snapshot triggers) and the tokens table. -/
theorem denylisted_mint_stored :
    isValidMint pEvil.subscribed denyMint = false ∧
    ((List.foldl (processBatch cfgLive pEvil) initWatcher [bEvil]).micro.lookup
      denyMint).isSome = true ∧
    ((List.foldl (processBatch cfgLive pEvil) initWatcher
      [bEvil]).engine.states.lookup denyMint).isSome = true ∧
    (List.foldl (processBatch cfgLive pEvil) initWatcher
      [bEvil]).engine.orders.map (fun r => r.mint) = [denyMint] ∧
    (List.foldl (processBatch cfgLive pEvil) initWatcher [bEvil]).tokens =
      [denyMint] := by
  have hw : List.foldl (processBatch cfgLive pEvil) initWatcher [bEvil] =
      ingest cfgLive initWatcher bEvil denyMint
        (sigRecord initWatcher bEvil goodMint) := rfl
  have hsnap : getSnapshot ((setMicro [] denyMint stEvil).lookup denyMint) =
      ⟨1, 1, 1, 0, 1/20, 1000⟩ := by
    have hlook : (setMicro [] denyMint stEvil).lookup denyMint =
        some stEvil := by decide
    rw [hlook]
    norm_num [getSnapshot, stEvil, trackFirstN, pushEvent, withLastPrice,
      withPriceJump, withFunder, initState, bumpCount, maxCount]
  have hE : (ingest cfgLive initWatcher bEvil denyMint
      (sigRecord initWatcher bEvil goodMint)).engine =
      evaluateMint cfgLive initEngine evEvil := rfl
  have hEc : evaluateMint cfgLive initEngine evEvil =
      evaluateMintCore cfgLive initEngine evEvil false true 0 :=
    evaluateMint_eq_core _ _ _ _ _ _
      (by rw [show evEvil.snapshot = ⟨1, 1, 1, 0, 1/20, 1000⟩ from hsnap]
          norm_num [safetyGate])
      (decide_eq_true
        (by rw [show evEvil.snapshot = ⟨1, 1, 1, 0, 1/20, 1000⟩ from hsnap]
            norm_num))
      (by rw [show evEvil.snapshot = ⟨1, 1, 1, 0, 1/20, 1000⟩ from hsnap]
          norm_num [convictionFromMicro, evEvil])
  refine ⟨by decide, ?_, ?_, ?_, ?_⟩
  · rw [hw]
    decide
  · rw [hw, hE, hEc]
    decide
  · rw [hw, hE, hEc]
    decide
  · rw [hw]
    decide

end Slim4
